import Mathlib

/-! Watchtower update pass (`actions/update.go`).

A shallow embedding of `Update`, `checkDependencies` and `randName`.

* The container client is an interface outside this file; it is embedded as a
  record of state-passing functions over an arbitrary client state `σ`, so a
  theorem quantified over the client covers every pattern of successes and
  failures.
* Every client call made by `Update` is recorded, with its result, in a trace.
* `math/rand` is embedded as a stream of raw draws.
* `container.SortByDependencies` lives in another package; `Update` takes it as
  the parameter `sort`.
-/

namespace Watchtower

/-! ## Data model -/

/-- Go `error` values; a `nil` error is `none` / `Except.ok`. -/
abbrev Error := String

/-- Go `time.Duration`. -/
abbrev Duration := Int

/-- The opaque `container.Filter` handed to `ListContainers`. -/
abbrev Filter := Nat

/-- Modelled from the spec: the `container.Container` struct is declared in the
`container` package. `update.go` uses its exported field `Stale` and the
methods `Name()`, `Links()` and `IsWatchtower()`; the descriptor is a struct
value, so assigning it copies it. -/
structure Container where
  Name : String
  Links : List String
  IsWatchtower : Bool
  Stale : Bool
deriving DecidableEq, Repr

deriving instance DecidableEq for Except

/-- One client call together with what it returned. -/
inductive Event where
  | ListContainers (filter : Filter) (res : Except Error (List Container))
  | IsContainerStale (c : Container) (res : Except Error Bool)
  | RenameContainer (c : Container) (newName : String) (err : Option Error)
  | StartContainer (c : Container) (timeout : Duration) (err : Option Error)
  | StopContainer (c : Container) (timeout : Duration) (err : Option Error)
  | RemoveImage (c : Container) (err : Option Error)
deriving DecidableEq

/-- The `container.Client` interface as used by `Update`: each method takes the
client state and returns its result with the next state. -/
structure Client (σ : Type) where
  ListContainers : Filter → σ → Except Error (List Container) × σ
  IsContainerStale : Container → σ → Except Error Bool × σ
  RenameContainer : Container → String → σ → Option Error × σ
  StartContainer : Container → Duration → σ → Option Error × σ
  StopContainer : Container → Duration → σ → Option Error × σ
  RemoveImage : Container → σ → Option Error × σ

/-! ## Random names -/

/-- State of the global `math/rand` source: the stream of raw draws to come. -/
abbrev Rng := Nat → Nat

/-- The alphabet `letters`. -/
def letters : List Char := "abcdefghijklmnopqrstuvwxyzABCDEFGHIJKLMNOPQRSTUVWXYZ".toList

/-- Go `rand.Intn(n)`: the next draw reduced into `[0, n)`, and the advanced source. -/
def Intn (n : Nat) (g : Rng) : Nat × Rng :=
  (g 0 % n, fun i => g (i + 1))

/-- The loop `for i := range b { b[i] = letters[rand.Intn(len(letters))] }` over
a buffer of `n` runes. -/
def randRunes : Nat → Rng → List Char × Rng
  | 0, g => ([], g)
  | n + 1, g =>
    let r := Intn letters.length g
    let rest := randRunes n r.2
    (letters.getD r.1 'a' :: rest.1, rest.2)

/-- The function `randName`: a name of 32 runes drawn from `letters`, and the
advanced random source. -/
def randName (g : Rng) : String × Rng :=
  let r := randRunes 32 g
  (String.mk r.1, r.2)

/-- The index expression `letters[i]` of Go: out of range it panics, here `none`. -/
def letterAt (i : Nat) : Option Char := letters[i]?

/-- The loop of `randName` with the indexing of `letters` checked: `none` when an
index falls outside the alphabet. -/
def randRunesChecked : Nat → Rng → Option (List Char × Rng)
  | 0, g => some ([], g)
  | n + 1, g =>
    let r := Intn letters.length g
    match letterAt r.1 with
    | none => none
    | some ch =>
      match randRunesChecked n r.2 with
      | none => none
      | some rest => some (ch :: rest.1, rest.2)

/-- The function `randName` with the indexing of `letters` checked. -/
def randNameChecked (g : Rng) : Option (String × Rng) :=
  match randRunesChecked 32 g with
  | none => none
  | some r => some (String.mk r.1, r.2)

/-! ## checkDependencies -/

/-- The labelled `LinkLoop` of `checkDependencies`: does some link of `parent`
name a container of the slice whose `Stale` flag is set? -/
def linkLoop (containers : List Container) (parent : Container) : Bool :=
  parent.Links.any fun linkName =>
    containers.any fun child => child.Name == linkName && child.Stale

/-- One iteration `i` of the outer loop of `checkDependencies`. -/
def checkStep (containers : List Container) (i : Nat) : List Container :=
  match containers[i]? with
  | none => containers
  | some parent =>
    if parent.Stale then containers
    else if linkLoop containers parent then
      containers.set i { parent with Stale := true }
    else containers

/-- The function `checkDependencies`: one sweep over the indices of the slice, updating the
slice in place. -/
def checkDependencies (containers : List Container) : List Container :=
  (List.range containers.length).foldl checkStep containers

/-! ## Update -/

/-- Outcome of one classification, start or stop loop. -/
structure Loop (σ : Type) where
  trace : List Event
  state : σ
  rng : Rng

/-- The classification loop (`containers[i].Stale = stale` for every `i`). -/
def classify {σ : Type} (client : Client σ) :
    List Container → σ → List Container × List Event × σ
  | [], s => ([], [], s)
  | container :: rest, s =>
    let r := client.IsContainerStale container s
    let stale := match r.1 with
      | .ok b => b
      | .error _ => false
    let t := classify client rest r.2
    ({ container with Stale := stale } :: t.1,
      Event.IsContainerStale container r.1 :: t.2.1, t.2.2)

/-- Body of the start loop for one element. The first component is the loop
variable `container` as it stands when the iteration ends: the assignments
`container.Stale = false` change this copy only. -/
def startBody {σ : Type} (client : Client σ) (noRestart : Bool) (startTimeout : Duration)
    (container : Container) (s : σ) (g : Rng) : Container × Loop σ :=
  if !container.Stale then (container, ⟨[], s, g⟩)
  else if noRestart && !container.IsWatchtower then (container, ⟨[], s, g⟩)
  else
    let oldName := container.Name
    let n := randName g
    let r1 := client.RenameContainer container n.1 s
    match r1.1 with
    | some e =>
      ({ container with Stale := false },
        ⟨[Event.RenameContainer container n.1 (some e)], r1.2, n.2⟩)
    | none =>
      let r2 := client.StartContainer container startTimeout r1.2
      match r2.1 with
      | some e =>
        let container' := { container with Stale := false }
        let r3 := client.RenameContainer container' oldName r2.2
        (container',
          ⟨[Event.RenameContainer container n.1 none,
            Event.StartContainer container startTimeout (some e),
            Event.RenameContainer container' oldName r3.1], r3.2, n.2⟩)
      | none =>
        (container,
          ⟨[Event.RenameContainer container n.1 none,
            Event.StartContainer container startTimeout none], r2.2, n.2⟩)

/-- The start loop `for _, container := range containers`. -/
def startLoop {σ : Type} (client : Client σ) (noRestart : Bool) (startTimeout : Duration) :
    List Container → σ → Rng → Loop σ
  | [], s, g => ⟨[], s, g⟩
  | container :: rest, s, g =>
    let b := (startBody client noRestart startTimeout container s g).2
    let t := startLoop client noRestart startTimeout rest b.state b.rng
    ⟨b.trace ++ t.trace, t.state, t.rng⟩

/-- Body of the stop loop for `container := containers[i]`. -/
def stopBody {σ : Type} (client : Client σ) (cleanup : Bool) (stopTimeout : Duration)
    (container : Container) (s : σ) : List Event × σ :=
  if container.IsWatchtower then ([], s)
  else if !container.Stale then ([], s)
  else
    let r1 := client.StopContainer container stopTimeout s
    match r1.1 with
    | some e => ([Event.StopContainer container stopTimeout (some e)], r1.2)
    | none =>
      if cleanup then
        let r2 := client.RemoveImage container r1.2
        ([Event.StopContainer container stopTimeout none,
          Event.RemoveImage container r2.1], r2.2)
      else ([Event.StopContainer container stopTimeout none], r1.2)

/-- The stop loop, given the elements in the order it visits them
(`containers[len-1]`, ..., `containers[0]`). -/
def stopLoop {σ : Type} (client : Client σ) (cleanup : Bool) (stopTimeout : Duration) :
    List Container → σ → List Event × σ
  | [], s => ([], s)
  | container :: rest, s =>
    let b := stopBody client cleanup stopTimeout container s
    let t := stopLoop client cleanup stopTimeout rest b.2
    (b.1 ++ t.1, t.2)

/-- What one call of `Update` leaves behind: the returned error, the client
calls made, and the final client and random-source states. -/
structure Run (σ : Type) where
  err : Option Error
  trace : List Event
  state : σ
  rng : Rng

/-- The function `Update`: list, classify, sort, propagate, run the start loop over
the slice and the stop loop over it backwards. Only a failed listing or a
failed sort returns an error. -/
def Update {σ : Type} (client : Client σ)
    (sort : List Container → Except Error (List Container))
    (filter : Filter) (cleanup noRestart : Bool) (startTimeout stopTimeout : Duration)
    (s : σ) (g : Rng) : Run σ :=
  let r0 := client.ListContainers filter s
  match r0.1 with
  | .error err => ⟨some err, [Event.ListContainers filter r0.1], r0.2, g⟩
  | .ok containers =>
    let cl := classify client containers r0.2
    let pre := Event.ListContainers filter r0.1 :: cl.2.1
    match sort cl.1 with
    | .error err => ⟨some err, pre, cl.2.2, g⟩
    | .ok sorted =>
      let containers := checkDependencies sorted
      let st := startLoop client noRestart startTimeout containers cl.2.2 g
      let sp := stopLoop client cleanup stopTimeout containers.reverse st.state
      ⟨none, pre ++ st.trace ++ sp.1, sp.2, st.rng⟩

/-! ## Dependency sort (stand-in for the `container` package) -/

/-- All links of `c` that name a container of `all` name one already placed. -/
def ready (all placed : List Container) (c : Container) : Bool :=
  c.Links.all fun n => !(all.any fun d => d.Name == n) || placed.any fun d => d.Name == n

/-- Takes the first ready container out of the remaining ones. -/
def pickReady (all placed : List Container) :
    List Container → Option (Container × List Container)
  | [] => none
  | c :: rest =>
    if ready all placed c then some (c, rest)
    else match pickReady all placed rest with
      | none => none
      | some (d, r) => some (d, c :: r)

/-- Places one ready container per round until none remains. -/
def sortRounds (all : List Container) :
    Nat → List Container → List Container → Except Error (List Container)
  | _, placed, [] => .ok placed
  | 0, _, _ :: _ => .error "circular reference"
  | fuel + 1, placed, c :: rest =>
    match pickReady all placed (c :: rest) with
    | none => .error "circular reference"
    | some (d, r) => sortRounds all fuel (placed ++ [d]) r

/-- Modelled from the spec: `container.SortByDependencies` is not part of
`actions/update.go`. The spec asks for a topological order by `Links` with
dependency-free containers first, ties broken by enumeration order, links to
containers outside the set ignored, and an error on a cycle. -/
def SortByDependencies (containers : List Container) : Except Error (List Container) :=
  sortRounds containers containers.length [] containers

/-! ## Propagation, restated for proofs -/

/-- The element `containers[i]` after iteration `i` of `checkDependencies`, given
the slice `containers` as that iteration finds it. -/
def promote (containers : List Container) (parent : Container) : Container :=
  if parent.Stale then parent
  else if linkLoop containers parent then { parent with Stale := true }
  else parent

/-- The sweep of `checkDependencies` with the slice split into the elements
already visited (`done`) and those still to visit. -/
def sweep : List Container → List Container → List Container
  | done, [] => done
  | done, parent :: rest => sweep (done ++ [promote (done ++ parent :: rest) parent]) rest

/-- Dependency order: whenever the container at position `i` links to the name of
the container at position `j`, position `j` comes first. -/
def DependencyOrder (l : List Container) : Prop :=
  ∀ i j : Fin l.length, (l.get j).Name ∈ (l.get i).Links → j < i

/-- Dependency order can be checked by running through the positions. -/
instance (l : List Container) : Decidable (DependencyOrder l) := by
  unfold DependencyOrder; infer_instance

/-- The name `n` leads to a stale container of `l`: a container of `l` called `n`
has its `Stale` flag set, or links to a name that leads to a stale container. -/
inductive LeadsToStale (l : List Container) : String → Prop where
  | stale (c : Container) : c ∈ l → c.Stale = true → LeadsToStale l c.Name
  | link (p : Container) (n : String) :
      p ∈ l → n ∈ p.Links → LeadsToStale l n → LeadsToStale l p.Name

/-! ## Reading traces -/

/-- A client call without its result. -/
inductive Call where
  | ListContainers (filter : Filter)
  | IsContainerStale (c : Container)
  | RenameContainer (c : Container) (newName : String)
  | StartContainer (c : Container) (timeout : Duration)
  | StopContainer (c : Container) (timeout : Duration)
  | RemoveImage (c : Container)
deriving DecidableEq, Repr

/-- The call an event records. -/
def Event.call : Event → Call
  | .ListContainers f _ => .ListContainers f
  | .IsContainerStale c _ => .IsContainerStale c
  | .RenameContainer c n _ => .RenameContainer c n
  | .StartContainer c t _ => .StartContainer c t
  | .StopContainer c t _ => .StopContainer c t
  | .RemoveImage c _ => .RemoveImage c

/-- The descriptor a call is about. -/
def Call.subject : Call → Option Container
  | .ListContainers _ => none
  | .IsContainerStale c => some c
  | .RenameContainer c _ => some c
  | .StartContainer c _ => some c
  | .StopContainer c _ => some c
  | .RemoveImage c => some c

/-- Rename, start, stop and image removal are the calls that change the runtime. -/
def Call.isMutation : Call → Bool
  | .ListContainers _ => false
  | .IsContainerStale _ => false
  | _ => true

/-- The call is a mutation of the container called `name`. -/
def Call.mutates (name : String) (c : Call) : Bool :=
  c.isMutation && (c.subject.map fun d => d.Name) == some name

/-- Whether the recorded call returned an error. -/
def Event.failed : Event → Bool
  | .ListContainers _ (.error _) => true
  | .IsContainerStale _ (.error _) => true
  | .RenameContainer _ _ (some _) => true
  | .StartContainer _ _ (some _) => true
  | .StopContainer _ _ (some _) => true
  | .RemoveImage _ (some _) => true
  | _ => false

/-- The phase of the pass a call belongs to: listing, classification, start
phase (rename and start), stop phase (stop and image removal). -/
def Call.phase : Call → Nat
  | .ListContainers _ => 0
  | .IsContainerStale _ => 1
  | .RenameContainer _ _ => 2
  | .StartContainer _ _ => 2
  | .StopContainer _ _ => 3
  | .RemoveImage _ => 3

/-- The descriptor passed to `StartContainer`, for a start call. -/
def Call.started : Call → Option Container
  | .StartContainer c _ => some c
  | _ => none

/-- The descriptor passed to `StopContainer`, for a stop call. -/
def Call.stopped : Call → Option Container
  | .StopContainer c _ => some c
  | _ => none

/-! ## What one descriptor contributes to each phase -/

/-- The calls the start loop makes for the element `c`: none when `c` is skipped;
else a rename to a generated name that fails, or that rename succeeding followed
by a failing start and the rename back to the old name, or the rename and the
start both succeeding. -/
def StartBlock (noRestart : Bool) (startTimeout : Duration) (c : Container)
    (b : List Event) : Prop :=
  (b = [] ∧ (c.Stale = false ∨ (noRestart = true ∧ c.IsWatchtower = false))) ∨
  (c.Stale = true ∧ (noRestart = true → c.IsWatchtower = true) ∧ ∃ g : Rng,
    ((∃ e, b = [Event.RenameContainer c (randName g).1 (some e)]) ∨
     (∃ e r, b = [Event.RenameContainer c (randName g).1 none,
        Event.StartContainer c startTimeout (some e),
        Event.RenameContainer { c with Stale := false } c.Name r]) ∨
     b = [Event.RenameContainer c (randName g).1 none,
        Event.StartContainer c startTimeout none]))

/-- The calls the stop loop makes for the element `c`: none when `c` is skipped;
else a failing stop, or a successful stop, followed by the image removal exactly
when `cleanup` is set. -/
def StopBlock (cleanup : Bool) (stopTimeout : Duration) (c : Container)
    (b : List Event) : Prop :=
  (b = [] ∧ (c.IsWatchtower = true ∨ c.Stale = false)) ∨
  (c.IsWatchtower = false ∧ c.Stale = true ∧
    ((∃ e, b = [Event.StopContainer c stopTimeout (some e)]) ∨
     (cleanup = false ∧ b = [Event.StopContainer c stopTimeout none]) ∨
     (cleanup = true ∧ ∃ r, b = [Event.StopContainer c stopTimeout none,
        Event.RemoveImage c r])))

/-! ## The happy path, as the spec words it -/

/-- The start phase when every call succeeds: for each stale container in turn,
rename it to a generated name, then start its replacement. -/
def happyStart (startTimeout : Duration) : List Container → Rng → List Call
  | [], _ => []
  | c :: rest, g =>
    Call.RenameContainer c (randName g).1 :: Call.StartContainer c startTimeout ::
      happyStart startTimeout rest (randName g).2

/-- The stop phase when every call succeeds: stop each stale container in turn,
removing its image right after when `cleanup` is set. -/
def happyStop (cleanup : Bool) (stopTimeout : Duration) : List Container → List Call
  | [] => []
  | c :: rest =>
    Call.StopContainer c stopTimeout ::
      ((if cleanup then [Call.RemoveImage c] else []) ++ happyStop cleanup stopTimeout rest)

/-! ## Scenarios -/

/-- A client over a trivial state that answers `ListContainers` with `list`,
reports staleness by `stale`, and fails exactly the rename, start, stop and
image-removal calls selected by the four flags. -/
def scriptedClient (list : Except Error (List Container))
    (stale : Container → Except Error Bool)
    (renameFails startFails stopFails removeFails : Bool) : Client Unit where
  ListContainers := fun _ s => (list, s)
  IsContainerStale := fun c s => (stale c, s)
  RenameContainer := fun _ _ s => (if renameFails then some "rename failed" else none, s)
  StartContainer := fun _ _ s => (if startFails then some "start failed" else none, s)
  StopContainer := fun _ _ s => (if stopFails then some "stop failed" else none, s)
  RemoveImage := fun _ s => (if removeFails then some "remove failed" else none, s)

/-- A random source whose every draw is `0`, so every generated name is 32 times `a`. -/
def zeroRng : Rng := fun _ => 0

/-- The name `randName` generates from `zeroRng`. -/
def rnd : String := "aaaaaaaaaaaaaaaaaaaaaaaaaaaaaaaa"

/-- Scenario container `A`: no links, not the updater. -/
def ctrA : Container := ⟨"A", [], false, false⟩

/-- Scenario containers `X` and `Y`, linking to each other. -/
def ctrX : Container := ⟨"X", ["Y"], false, false⟩

/-- See `ctrX`. -/
def ctrY : Container := ⟨"Y", ["X"], false, false⟩

/-- Scenario container `W`: the updater itself. -/
def ctrW : Container := ⟨"W", [], true, false⟩

/-- The chain `A → B → C` in dependency order, with only `C` stale. -/
def chainCBA : List Container :=
  [⟨"C", [], false, true⟩, ⟨"B", ["C"], false, false⟩, ⟨"A", ["B"], false, false⟩]

/-- Scenario container `B`: no links, not the updater. -/
def ctrB : Container := ⟨"B", [], false, false⟩

/-- Scenario container `P`, linking to `C`. -/
def ctrP : Container := ⟨"P", ["C"], false, false⟩

/-- Scenario container `C`: no links. -/
def ctrC : Container := ⟨"C", [], false, false⟩

/-- Staleness answers: the check of `P` fails, every other container is stale. -/
def failP (c : Container) : Except Error Bool :=
  if c.Name = "P" then .error "timeout" else .ok true

/-- Staleness answers: the check of `A` fails, every other container is stale. -/
def failA (c : Container) : Except Error Bool :=
  if c.Name = "A" then .error "timeout" else .ok true

/-- Staleness answers: exactly `B` is stale. -/
def staleB (c : Container) : Except Error Bool :=
  .ok (c.Name == "B")

/-- Staleness answers: the check of `B` fails, every other container is fresh. -/
def failB (c : Container) : Except Error Bool :=
  if c.Name = "B" then .error "timeout" else .ok false

/-- The chain `A → B → C` listed parents first, with only `C` stale. -/
def chainABC : List Container :=
  [⟨"A", ["B"], false, false⟩, ⟨"B", ["C"], false, false⟩, ⟨"C", [], false, true⟩]

/-- Staleness answers: exactly `C` is stale. -/
def staleC (c : Container) : Except Error Bool :=
  .ok (c.Name == "C")

theorem classify_calls {σ : Type} (client : Client σ) (cs : List Container) (s : σ) :
    (classify client cs s).2.1.map Event.call = cs.map Call.IsContainerStale := by
  induction cs generalizing s with
  | nil => rfl
  | cons c rest ih => simp [classify, Event.call, ih]

theorem startBody_events {σ : Type} (client : Client σ) (noRestart : Bool) (startTimeout : Duration)
    (c : Container) (s : σ) (g : Rng) (ev : Event)
    (h : ev ∈ (startBody client noRestart startTimeout c s g).2.trace) :
    c.Stale = true ∧ (noRestart = true → c.IsWatchtower = true) ∧
      (ev.call = Call.RenameContainer c (randName g).1 ∨
        ev.call = Call.StartContainer c startTimeout ∨
        ev.call = Call.RenameContainer { c with Stale := false } c.Name) := by
  cases hs : c.Stale
  · simp [startBody, hs] at h
  · cases hn : (noRestart && !c.IsWatchtower)
    · have hw : noRestart = true → c.IsWatchtower = true := by
        intro hnr; simpa [hnr] using hn
      refine ⟨rfl, hw, ?_⟩
      cases hr1 : (client.RenameContainer c (randName g).1 s).1 with
      | some e =>
        simp [startBody, hs, hn, hr1] at h
        subst h; simp [Event.call]
      | none =>
        cases hr2 : (client.StartContainer c startTimeout
            (client.RenameContainer c (randName g).1 s).2).1 with
        | some e =>
          simp [startBody, hs, hn, hr1, hr2] at h
          rcases h with h | h | h <;> subst h <;> simp [Event.call]
        | none =>
          simp [startBody, hs, hn, hr1, hr2] at h
          rcases h with h | h <;> subst h <;> simp [Event.call]
    · simp [startBody, hs, hn] at h

theorem startLoop_events {σ : Type} (client : Client σ) (noRestart : Bool) (startTimeout : Duration)
    (cs : List Container) (s : σ) (g : Rng) (ev : Event)
    (h : ev ∈ (startLoop client noRestart startTimeout cs s g).trace) :
    ∃ c ∈ cs, c.Stale = true ∧ (noRestart = true → c.IsWatchtower = true) ∧
      ((∃ n, ev.call = Call.RenameContainer c n) ∨
        ev.call = Call.StartContainer c startTimeout ∨
        ev.call = Call.RenameContainer { c with Stale := false } c.Name) := by
  induction cs generalizing s g with
  | nil => simp [startLoop] at h
  | cons c rest ih =>
    simp only [startLoop, List.mem_append] at h
    rcases h with h | h
    · obtain ⟨h1, h2, h3⟩ := startBody_events client noRestart startTimeout c s g ev h
      refine ⟨c, List.mem_cons_self _ _, h1, h2, ?_⟩
      rcases h3 with h3 | h3 | h3
      · exact Or.inl ⟨_, h3⟩
      · exact Or.inr (Or.inl h3)
      · exact Or.inr (Or.inr h3)
    · obtain ⟨d, hd, hrest⟩ := ih _ _ h
      exact ⟨d, List.mem_cons_of_mem _ hd, hrest⟩

theorem stopBody_events {σ : Type} (client : Client σ) (cleanup : Bool) (stopTimeout : Duration)
    (c : Container) (s : σ) (ev : Event)
    (h : ev ∈ (stopBody client cleanup stopTimeout c s).1) :
    c.Stale = true ∧ c.IsWatchtower = false ∧
      (ev.call = Call.StopContainer c stopTimeout ∨
        (cleanup = true ∧ ev.call = Call.RemoveImage c)) := by
  cases hw : c.IsWatchtower
  · cases hs : c.Stale
    · simp [stopBody, hw, hs] at h
    · refine ⟨rfl, rfl, ?_⟩
      cases hr1 : (client.StopContainer c stopTimeout s).1 with
      | some e =>
        simp [stopBody, hw, hs, hr1] at h
        subst h; simp [Event.call]
      | none =>
        cases hc : cleanup
        · simp [stopBody, hw, hs, hr1, hc] at h
          subst h; simp [Event.call]
        · simp [stopBody, hw, hs, hr1, hc] at h
          rcases h with h | h <;> subst h <;> simp [Event.call]
  · simp [stopBody, hw] at h

theorem stopLoop_events {σ : Type} (client : Client σ) (cleanup : Bool) (stopTimeout : Duration)
    (cs : List Container) (s : σ) (ev : Event)
    (h : ev ∈ (stopLoop client cleanup stopTimeout cs s).1) :
    ∃ c ∈ cs, c.Stale = true ∧ c.IsWatchtower = false ∧
      (ev.call = Call.StopContainer c stopTimeout ∨
        (cleanup = true ∧ ev.call = Call.RemoveImage c)) := by
  induction cs generalizing s with
  | nil => simp [stopLoop] at h
  | cons c rest ih =>
    simp only [stopLoop, List.mem_append] at h
    rcases h with h | h
    · exact ⟨c, List.mem_cons_self _ _, stopBody_events client cleanup stopTimeout c s ev h⟩
    · obtain ⟨d, hd, hrest⟩ := ih _ h
      exact ⟨d, List.mem_cons_of_mem _ hd, hrest⟩

/-- Shape of the trace of a run: where each event of `Update` comes from. -/
theorem Update_trace_cases {σ : Type} (client : Client σ)
    (sort : List Container → Except Error (List Container))
    (filter : Filter) (cleanup noRestart : Bool) (startTimeout stopTimeout : Duration)
    (s : σ) (g : Rng) (ev : Event)
    (h : ev ∈ (Update client sort filter cleanup noRestart startTimeout stopTimeout s g).trace) :
    ev.call = Call.ListContainers filter ∨
    (∃ c, ev.call = Call.IsContainerStale c) ∨
    ∃ cs sorted, (client.ListContainers filter s).1 = .ok cs ∧
      sort (classify client cs (client.ListContainers filter s).2).1 = .ok sorted ∧
      ((∃ c ∈ checkDependencies sorted, c.Stale = true ∧
          (noRestart = true → c.IsWatchtower = true) ∧
          ((∃ n, ev.call = Call.RenameContainer c n) ∨
            ev.call = Call.StartContainer c startTimeout ∨
            ev.call = Call.RenameContainer { c with Stale := false } c.Name)) ∨
       (∃ c ∈ checkDependencies sorted, c.Stale = true ∧ c.IsWatchtower = false ∧
          (ev.call = Call.StopContainer c stopTimeout ∨
            (cleanup = true ∧ ev.call = Call.RemoveImage c)))) := by
  cases hl : (client.ListContainers filter s).1 with
  | error e =>
    simp [Update, hl] at h
    subst h; simp [Event.call]
  | ok cs =>
    have hcl : ∀ ev ∈ (classify client cs (client.ListContainers filter s).2).2.1,
        ∃ c, ev.call = Call.IsContainerStale c := by
      intro ev hev
      have h1 : ev.call ∈ cs.map Call.IsContainerStale := by
        rw [← classify_calls client cs (client.ListContainers filter s).2]
        exact List.mem_map_of_mem _ hev
      obtain ⟨c, -, hc⟩ := List.mem_map.1 h1
      exact ⟨c, hc.symm⟩
    cases hsrt : sort (classify client cs (client.ListContainers filter s).2).1 with
    | error e =>
      simp [Update, hl, hsrt] at h
      rcases h with h | h
      · subst h; simp [Event.call]
      · exact Or.inr (Or.inl (hcl ev h))
    | ok sorted =>
      simp [Update, hl, hsrt] at h
      rcases h with h | h | h | h
      · subst h; simp [Event.call]
      · exact Or.inr (Or.inl (hcl ev h))
      · exact Or.inr (Or.inr ⟨cs, sorted, rfl, hsrt, Or.inl (startLoop_events _ _ _ _ _ _ _ h)⟩)
      · obtain ⟨c, hc, hrest⟩ := stopLoop_events _ _ _ _ _ _ h
        exact Or.inr (Or.inr ⟨cs, sorted, rfl, hsrt, Or.inr ⟨c, List.mem_reverse.1 hc, hrest⟩⟩)

/-! ## The sweep of `checkDependencies` -/

theorem checkStep_append (done rest : List Container) (parent : Container) :
    checkStep (done ++ parent :: rest) done.length =
      done ++ promote (done ++ parent :: rest) parent :: rest := by
  have hget : (done ++ parent :: rest)[done.length]? = some parent := by
    rw [List.getElem?_append_right (Nat.le_refl _)]; simp
  unfold checkStep promote
  rw [hget]
  by_cases hs : parent.Stale = true
  · simp [hs]
  · by_cases hl : linkLoop (done ++ parent :: rest) parent = true
    · simp [hs, hl]
    · simp [hs, hl]

theorem foldl_checkStep_eq_sweep (rest done : List Container) :
    (List.range' done.length rest.length).foldl checkStep (done ++ rest) = sweep done rest := by
  induction rest generalizing done with
  | nil => simp [sweep]
  | cons parent rest ih =>
    simp only [List.length_cons, List.range'_succ, List.foldl_cons, checkStep_append, sweep]
    have := ih (done ++ [promote (done ++ parent :: rest) parent])
    simpa using this

theorem checkDependencies_eq_sweep (l : List Container) :
    checkDependencies l = sweep [] l := by
  have := foldl_checkStep_eq_sweep l []
  simpa [checkDependencies, List.range_eq_range'] using this

theorem promote_fields (l : List Container) (p : Container) :
    (promote l p).Name = p.Name ∧ (promote l p).Links = p.Links ∧
      (promote l p).IsWatchtower = p.IsWatchtower := by
  unfold promote
  split
  · simp
  · split <;> simp

theorem promote_stale_iff (l : List Container) (p : Container) :
    (promote l p).Stale = true ↔ p.Stale = true ∨ linkLoop l p = true := by
  unfold promote
  by_cases hs : p.Stale = true
  · simp [hs]
  · by_cases hl : linkLoop l p = true
    · simp [hs, hl]
    · simp [hs, hl]

theorem linkLoop_eq_true (l : List Container) (p : Container) :
    linkLoop l p = true ↔ ∃ c ∈ l, c.Name ∈ p.Links ∧ c.Stale = true := by
  simp only [linkLoop, List.any_eq_true, Bool.and_eq_true, beq_iff_eq]
  constructor
  · rintro ⟨n, hn, c, hc, hname, hst⟩
    exact ⟨c, hc, hname ▸ hn, hst⟩
  · rintro ⟨c, hc, hname, hst⟩
    exact ⟨c.Name, hname, c, hc, rfl, hst⟩

/-- Name and links of every position survive the sweep. -/
theorem sweep_map (f : Container → String × List String)
    (hf : ∀ l p, f (promote l p) = f p) (rest done : List Container) :
    (sweep done rest).map f = (done ++ rest).map f := by
  induction rest generalizing done with
  | nil => simp [sweep]
  | cons p rest ih =>
    rw [sweep, ih]
    simp [hf]

/-- After the sweep, a stale container makes every later container that links
to it stale. -/
theorem sweep_pairwise (rest done : List Container)
    (h : done.Pairwise fun c p => c.Name ∈ p.Links → c.Stale = true → p.Stale = true) :
    (sweep done rest).Pairwise fun c p => c.Name ∈ p.Links → c.Stale = true → p.Stale = true := by
  induction rest generalizing done with
  | nil => simpa [sweep] using h
  | cons p rest ih =>
    rw [sweep]
    apply ih
    rw [List.pairwise_append]
    refine ⟨h, List.pairwise_singleton _ _, ?_⟩
    intro c hc q hq hlink hst
    rw [List.mem_singleton] at hq
    subst hq
    rw [promote_stale_iff]
    right
    rw [linkLoop_eq_true]
    rw [(promote_fields _ _).2.1] at hlink
    exact ⟨c, List.mem_append_left _ hc, hlink, hst⟩

/-- Dependency order read through optional indexing. -/
theorem DependencyOrder.lt_of_link {l : List Container} (h : DependencyOrder l)
    {i j : Nat} {P C : Container} (hi : l[i]? = some P) (hj : l[j]? = some C)
    (hlink : C.Name ∈ P.Links) : j < i := by
  obtain ⟨hi', hiv⟩ := List.getElem?_eq_some.1 hi
  obtain ⟨hj', hjv⟩ := List.getElem?_eq_some.1 hj
  have := h ⟨i, hi'⟩ ⟨j, hj'⟩
  simp only [List.get_eq_getElem, hiv, hjv] at this
  exact this hlink

theorem checkDependencies_key (l : List Container) :
    (checkDependencies l).map (fun c => (c.Name, c.Links)) =
      l.map (fun c => (c.Name, c.Links)) := by
  rw [checkDependencies_eq_sweep]
  have := sweep_map (fun c => (c.Name, c.Links))
    (fun l p => by simp [(promote_fields l p).1, (promote_fields l p).2.1]) l []
  simpa using this

theorem checkDependencies_getElem?_key (l : List Container) (i : Nat) (P : Container)
    (h : (checkDependencies l)[i]? = some P) :
    ∃ P0, l[i]? = some P0 ∧ P0.Name = P.Name ∧ P0.Links = P.Links := by
  have h1 : ((checkDependencies l).map (fun c => (c.Name, c.Links)))[i]? =
      some (P.Name, P.Links) := by
    rw [List.getElem?_map, h]; rfl
  rw [checkDependencies_key, List.getElem?_map] at h1
  cases hl : l[i]? with
  | none => rw [hl] at h1; simp at h1
  | some P0 =>
    rw [hl] at h1
    simp only [Option.map_some', Option.some.injEq, Prod.mk.injEq] at h1
    exact ⟨P0, rfl, h1.1, h1.2⟩

/-! ## Soundness of the propagation -/

theorem LeadsToStale.mono {l l' : List Container} (h : ∀ c ∈ l, c ∈ l') {n : String}
    (hn : LeadsToStale l n) : LeadsToStale l' n := by
  induction hn with
  | stale c hc hs => exact LeadsToStale.stale c (h c hc) hs
  | link p n hp hl _ ih => exact LeadsToStale.link p n (h p hp) hl ih

theorem LeadsToStale.exists_stale {l : List Container} {n : String}
    (hn : LeadsToStale l n) : ∃ c ∈ l, c.Stale = true := by
  induction hn with
  | stale c hc hs => exact ⟨c, hc, hs⟩
  | link _ _ _ _ _ ih => exact ih

/-- What the sweep keeps true of every element of the slice, relative to the
slice `l` it started from. -/
theorem sweep_sound (l rest done : List Container)
    (h : ∀ c ∈ done ++ rest, (c.Stale = true → LeadsToStale l c.Name) ∧
      ∃ c0 ∈ l, c0.Name = c.Name ∧ c0.Links = c.Links ∧ c0.IsWatchtower = c.IsWatchtower) :
    ∀ c ∈ sweep done rest, (c.Stale = true → LeadsToStale l c.Name) ∧
      ∃ c0 ∈ l, c0.Name = c.Name ∧ c0.Links = c.Links ∧ c0.IsWatchtower = c.IsWatchtower := by
  induction rest generalizing done with
  | nil => simpa [sweep] using h
  | cons p rest ih =>
    rw [sweep]
    apply ih
    intro c hc
    have hp := h p (by simp)
    obtain ⟨hpn, hpl, hpw⟩ := promote_fields (done ++ p :: rest) p
    simp only [List.mem_append, List.mem_singleton] at hc
    rcases hc with (hc | hc) | hc
    · exact h c (by simp [hc])
    · subst hc
      obtain ⟨p0, hp0, h0n, h0l, h0w⟩ := hp.2
      refine ⟨?_, p0, hp0, by rw [hpn, h0n], by rw [hpl, h0l], by rw [hpw, h0w]⟩
      intro hst
      rw [hpn]
      rcases (promote_stale_iff _ _).1 hst with hst | hst
      · exact hp.1 hst
      · obtain ⟨c, hc, hlink, hcs⟩ := (linkLoop_eq_true _ _).1 hst
        have := LeadsToStale.link p0 c.Name hp0 (by rw [h0l]; exact hlink) ((h c hc).1 hcs)
        rwa [h0n] at this
    · exact h c (by simp [hc])

/-- The sweep of `checkDependencies` marks a container only if its name leads to a container
that was stale before, and leaves name, links and updater flag alone. -/
theorem checkDependencies_sound (l : List Container) :
    ∀ c ∈ checkDependencies l, (c.Stale = true → LeadsToStale l c.Name) ∧
      ∃ c0 ∈ l, c0.Name = c.Name ∧ c0.Links = c.Links ∧ c0.IsWatchtower = c.IsWatchtower := by
  rw [checkDependencies_eq_sweep]
  apply sweep_sound
  intro c hc
  rw [List.nil_append] at hc
  exact ⟨fun hs => LeadsToStale.stale c hc hs, c, hc, rfl, rfl, rfl⟩

/-! ## Classification -/

theorem classify_fields {σ : Type} (client : Client σ) (cs : List Container) (s : σ) :
    ∀ c ∈ (classify client cs s).1,
      ∃ c0 ∈ cs, c0.Name = c.Name ∧ c0.Links = c.Links ∧ c0.IsWatchtower = c.IsWatchtower := by
  induction cs generalizing s with
  | nil => simp [classify]
  | cons d rest ih =>
    intro c hc
    simp only [classify, List.mem_cons] at hc
    rcases hc with hc | hc
    · subst hc; exact ⟨d, by simp, rfl, rfl, rfl⟩
    · obtain ⟨c0, h0, h⟩ := ih _ c hc
      exact ⟨c0, List.mem_cons_of_mem _ h0, h⟩

theorem classify_stale {σ : Type} (client : Client σ) (cs : List Container) (s : σ) :
    ∀ c ∈ (classify client cs s).1, c.Stale = true →
      ∃ d, Event.IsContainerStale d (.ok true) ∈ (classify client cs s).2.1 := by
  induction cs generalizing s with
  | nil => simp [classify]
  | cons d rest ih =>
    intro c hc hst
    simp only [classify, List.mem_cons] at hc
    rcases hc with hc | hc
    · subst hc
      refine ⟨d, ?_⟩
      simp only [classify]
      cases hr : (client.IsContainerStale d s).1 with
      | error e => simp [hr] at hst
      | ok b =>
        simp [hr] at hst
        subst hst
        simp
    · obtain ⟨d', hd'⟩ := ih _ c hc hst
      exact ⟨d', by simp only [classify]; exact List.mem_cons_of_mem _ hd'⟩

theorem classify_error {σ : Type} (client : Client σ) (cs : List Container) (s : σ)
    (D : Container) (e : Error)
    (h : Event.IsContainerStale D (.error e) ∈ (classify client cs s).2.1) :
    { D with Stale := false } ∈ (classify client cs s).1 := by
  induction cs generalizing s with
  | nil => simp [classify] at h
  | cons d rest ih =>
    simp only [classify, List.mem_cons] at h ⊢
    rcases h with h | h
    · left
      simp only [Event.IsContainerStale.injEq] at h
      rw [← h.2, h.1]
    · exact Or.inr (ih _ h)

/-! ## The trace of a run, phase by phase -/

theorem Update_trace_of_sort_error {σ : Type} (client : Client σ)
    (sort : List Container → Except Error (List Container))
    (filter : Filter) (cleanup noRestart : Bool) (startTimeout stopTimeout : Duration)
    (s : σ) (g : Rng) (cs : List Container) (e : Error)
    (hl : (client.ListContainers filter s).1 = .ok cs)
    (hs : sort (classify client cs (client.ListContainers filter s).2).1 = .error e) :
    (Update client sort filter cleanup noRestart startTimeout stopTimeout s g).trace =
      Event.ListContainers filter (.ok cs) ::
        (classify client cs (client.ListContainers filter s).2).2.1 := by
  simp [Update, hl, hs]

theorem Update_trace_of_sort_ok {σ : Type} (client : Client σ)
    (sort : List Container → Except Error (List Container))
    (filter : Filter) (cleanup noRestart : Bool) (startTimeout stopTimeout : Duration)
    (s : σ) (g : Rng) (cs sorted : List Container)
    (hl : (client.ListContainers filter s).1 = .ok cs)
    (hs : sort (classify client cs (client.ListContainers filter s).2).1 = .ok sorted) :
    (Update client sort filter cleanup noRestart startTimeout stopTimeout s g).trace =
      Event.ListContainers filter (.ok cs) ::
        (classify client cs (client.ListContainers filter s).2).2.1 ++
      (startLoop client noRestart startTimeout (checkDependencies sorted)
        (classify client cs (client.ListContainers filter s).2).2.2 g).trace ++
      (stopLoop client cleanup stopTimeout (checkDependencies sorted).reverse
        (startLoop client noRestart startTimeout (checkDependencies sorted)
          (classify client cs (client.ListContainers filter s).2).2.2 g).state).1 := by
  simp [Update, hl, hs]

/-- The classification events of a run are part of its trace. -/
theorem classify_subset_trace {σ : Type} (client : Client σ)
    (sort : List Container → Except Error (List Container))
    (filter : Filter) (cleanup noRestart : Bool) (startTimeout stopTimeout : Duration)
    (s : σ) (g : Rng) (cs : List Container)
    (hl : (client.ListContainers filter s).1 = .ok cs) :
    ∀ ev ∈ (classify client cs (client.ListContainers filter s).2).2.1,
      ev ∈ (Update client sort filter cleanup noRestart startTimeout stopTimeout s g).trace := by
  intro ev hev
  cases hs : sort (classify client cs (client.ListContainers filter s).2).1 with
  | error e =>
    rw [Update_trace_of_sort_error client sort filter cleanup noRestart startTimeout
      stopTimeout s g cs e hl hs]
    exact List.mem_cons_of_mem _ hev
  | ok sorted =>
    rw [Update_trace_of_sort_ok client sort filter cleanup noRestart startTimeout
      stopTimeout s g cs sorted hl hs]
    simp [hev]

/-- Every mutating call of a run is about a descriptor whose name leads to a
container marked stale at classification. -/
theorem Update_mutation_leads {σ : Type} (client : Client σ)
    (sort : List Container → Except Error (List Container))
    (filter : Filter) (cleanup noRestart : Bool) (startTimeout stopTimeout : Duration)
    (s : σ) (g : Rng) (cs : List Container)
    (hl : (client.ListContainers filter s).1 = .ok cs)
    (hsub : ∀ sorted, sort (classify client cs (client.ListContainers filter s).2).1 = .ok sorted →
      ∀ c ∈ sorted, c ∈ (classify client cs (client.ListContainers filter s).2).1)
    (ev : Event)
    (hev : ev ∈ (Update client sort filter cleanup noRestart startTimeout stopTimeout s g).trace)
    (hmut : ev.call.isMutation = true) :
    ∃ d, ev.call.subject = some d ∧
      LeadsToStale (classify client cs (client.ListContainers filter s).2).1 d.Name := by
  rcases Update_trace_cases client sort filter cleanup noRestart startTimeout stopTimeout
      s g ev hev with h | ⟨d, h⟩ | ⟨cs', sorted, hl', hs, h⟩
  · rw [h] at hmut; simp [Call.isMutation] at hmut
  · rw [h] at hmut; simp [Call.isMutation] at hmut
  · rw [hl] at hl'
    simp only [Except.ok.injEq] at hl'
    subst hl'
    have hlead : ∀ c ∈ checkDependencies sorted, c.Stale = true →
        LeadsToStale (classify client cs (client.ListContainers filter s).2).1 c.Name :=
      fun c hc hst => ((checkDependencies_sound sorted c hc).1 hst).mono (hsub sorted hs)
    rcases h with ⟨c, hc, hst, -, ⟨n, h⟩ | h | h⟩ | ⟨c, hc, hst, -, h | ⟨-, h⟩⟩
    · exact ⟨c, by rw [h]; rfl, hlead c hc hst⟩
    · exact ⟨c, by rw [h]; rfl, hlead c hc hst⟩
    · exact ⟨{ c with Stale := false }, by rw [h]; rfl, hlead c hc hst⟩
    · exact ⟨c, by rw [h]; rfl, hlead c hc hst⟩
    · exact ⟨c, by rw [h]; rfl, hlead c hc hst⟩

theorem mutates_eq_false_of_not_leads {l : List Container} {name : String} {call : Call}
    (h : call.isMutation = true → ∃ d, call.subject = some d ∧ LeadsToStale l d.Name)
    (hno : ¬ LeadsToStale l name) : call.mutates name = false := by
  cases hm : call.isMutation with
  | false => simp [Call.mutates, hm]
  | true =>
    obtain ⟨d, hd, hlead⟩ := h hm
    have : d.Name ≠ name := fun heq => hno (heq ▸ hlead)
    simp [Call.mutates, hd, this]

theorem classify_names {σ : Type} (client : Client σ) (cs : List Container) (s : σ) :
    (classify client cs s).1.map (fun c => c.Name) = cs.map (fun c => c.Name) := by
  induction cs generalizing s with
  | nil => rfl
  | cons d rest ih => simp [classify, ih]

/-- A name does not lead to a stale container when no container of that name is
marked and none of their links leads to one. -/
theorem not_leadsToStale_of_name {l : List Container} {name : String}
    (hfresh : ∀ c ∈ l, c.Name = name → c.Stale = false)
    (hchain : ∀ c ∈ l, c.Name = name → ∀ n ∈ c.Links, ¬ LeadsToStale l n) :
    ¬ LeadsToStale l name := by
  intro h
  generalize hn : name = n at h
  cases h with
  | stale c hc hs =>
    rw [hfresh c hc hn.symm] at hs
    exact Bool.noConfusion hs
  | link p m hp hm hlead => exact hchain p hp hn.symm m hm hlead

/-- With unique names, a fresh container none of whose links leads to a stale
container does not lead to one itself. -/
theorem not_leadsToStale_of_fresh {l : List Container} (hnd : (l.map fun c => c.Name).Nodup)
    {D : Container} (hD : D ∈ l) (hfresh : D.Stale = false)
    (hlinks : ∀ n ∈ D.Links, ¬ LeadsToStale l n) : ¬ LeadsToStale l D.Name := by
  apply not_leadsToStale_of_name
  · intro c hc hn
    rw [List.inj_on_of_nodup_map hnd hc hD hn]; exact hfresh
  · intro c hc hn
    rw [List.inj_on_of_nodup_map hnd hc hD hn]; exact hlinks

theorem startLoop_trace_of_fresh {σ : Type} (client : Client σ) (noRestart : Bool)
    (startTimeout : Duration) (l : List Container) (s : σ) (g : Rng)
    (h : ∀ c ∈ l, c.Stale = false) :
    (startLoop client noRestart startTimeout l s g).trace = [] := by
  rw [List.eq_nil_iff_forall_not_mem]
  intro ev hev
  obtain ⟨c, hc, hst, -⟩ := startLoop_events client noRestart startTimeout l s g ev hev
  rw [h c hc] at hst
  exact Bool.noConfusion hst

theorem stopLoop_trace_of_fresh {σ : Type} (client : Client σ) (cleanup : Bool)
    (stopTimeout : Duration) (l : List Container) (s : σ)
    (h : ∀ c ∈ l, c.Stale = false) :
    (stopLoop client cleanup stopTimeout l s).1 = [] := by
  rw [List.eq_nil_iff_forall_not_mem]
  intro ev hev
  obtain ⟨c, hc, hst, -⟩ := stopLoop_events client cleanup stopTimeout l s ev hev
  rw [h c hc] at hst
  exact Bool.noConfusion hst

/-- Exact calls of a run whose listing succeeded and whose sort failed. -/
theorem Update_calls_of_sort_error {σ : Type} (client : Client σ)
    (sort : List Container → Except Error (List Container))
    (filter : Filter) (cleanup noRestart : Bool) (startTimeout stopTimeout : Duration)
    (s : σ) (g : Rng) (cs : List Container) (e : Error)
    (hl : (client.ListContainers filter s).1 = .ok cs)
    (hs : sort (classify client cs (client.ListContainers filter s).2).1 = .error e) :
    (Update client sort filter cleanup noRestart startTimeout stopTimeout s g).trace.map
        Event.call = Call.ListContainers filter :: cs.map Call.IsContainerStale := by
  simp [Update, hl, hs, Event.call, classify_calls]

/-! ## The loops when nothing fails -/

theorem startLoop_happy {σ : Type} (client : Client σ) (startTimeout : Duration)
    (l : List Container) (s : σ) (g : Rng)
    (hok : ∀ ev ∈ (startLoop client false startTimeout l s g).trace, ev.failed = false) :
    (startLoop client false startTimeout l s g).trace.map Event.call =
      happyStart startTimeout (l.filter fun c => c.Stale) g := by
  induction l generalizing s g with
  | nil => rfl
  | cons c rest ih =>
    simp only [startLoop] at hok ⊢
    cases hs : c.Stale with
    | false =>
      simp only [startBody, hs, Bool.not_false, ↓reduceIte, List.nil_append] at hok ⊢
      rw [ih _ _ hok]
      simp [List.filter, hs]
    | true =>
      cases hr1 : (client.RenameContainer c (randName g).1 s).1 with
      | some e =>
        have := hok (Event.RenameContainer c (randName g).1 (some e))
          (by simp [startBody, hs, hr1])
        simp [Event.failed] at this
      | none =>
        cases hr2 : (client.StartContainer c startTimeout
            (client.RenameContainer c (randName g).1 s).2).1 with
        | some e =>
          have := hok (Event.StartContainer c startTimeout (some e))
            (by simp [startBody, hs, hr1, hr2])
          simp [Event.failed] at this
        | none =>
          simp only [startBody, hs, hr1, hr2, Bool.not_true, Bool.false_and,
            Bool.false_eq_true, ↓reduceIte] at hok ⊢
          have hrest := ih _ _ (fun ev hev => hok ev (List.mem_append_right _ hev))
          simp only [List.map_append, hrest]
          simp [List.filter, hs, happyStart, Event.call]

theorem stopLoop_happy {σ : Type} (client : Client σ) (cleanup : Bool)
    (stopTimeout : Duration) (l : List Container) (s : σ)
    (hnw : ∀ c ∈ l, c.IsWatchtower = false)
    (hok : ∀ ev ∈ (stopLoop client cleanup stopTimeout l s).1, ev.failed = false) :
    (stopLoop client cleanup stopTimeout l s).1.map Event.call =
      happyStop cleanup stopTimeout (l.filter fun c => c.Stale) := by
  induction l generalizing s with
  | nil => rfl
  | cons c rest ih =>
    have hw : c.IsWatchtower = false := hnw c (List.mem_cons_self _ _)
    have hnw' : ∀ d ∈ rest, d.IsWatchtower = false :=
      fun d hd => hnw d (List.mem_cons_of_mem _ hd)
    simp only [stopLoop] at hok ⊢
    cases hs : c.Stale with
    | false =>
      simp only [stopBody, hw, hs, Bool.not_false, Bool.false_eq_true, ↓reduceIte,
        List.nil_append] at hok ⊢
      rw [ih _ hnw' hok]
      simp [List.filter, hs]
    | true =>
      cases hr1 : (client.StopContainer c stopTimeout s).1 with
      | some e =>
        have := hok (Event.StopContainer c stopTimeout (some e))
          (by simp [stopBody, hw, hs, hr1])
        simp [Event.failed] at this
      | none =>
        cases hc : cleanup with
        | false =>
          subst hc
          simp only [stopBody, hw, hs, hr1, Bool.not_true, Bool.false_eq_true,
            ↓reduceIte] at hok ⊢
          have hrest := ih _ hnw' (fun ev hev => hok ev (List.mem_append_right _ hev))
          simp only [List.map_append, hrest]
          simp [List.filter, hs, happyStop, Event.call]
        | true =>
          subst hc
          simp only [stopBody, hw, hs, hr1, Bool.not_true, Bool.false_eq_true,
            ↓reduceIte] at hok ⊢
          have hrest := ih _ hnw' (fun ev hev => hok ev (List.mem_append_right _ hev))
          simp only [List.map_append, hrest]
          simp [List.filter, hs, happyStop, Event.call]

/-- The stop loop calls `StopContainer` for every stale container that is not
the updater. -/
theorem stopLoop_stops {σ : Type} (client : Client σ) (cleanup : Bool)
    (stopTimeout : Duration) (l : List Container) (s : σ) (c : Container)
    (hc : c ∈ l) (hs : c.Stale = true) (hw : c.IsWatchtower = false) :
    ∃ err, Event.StopContainer c stopTimeout err ∈ (stopLoop client cleanup stopTimeout l s).1 := by
  induction l generalizing s with
  | nil => cases hc
  | cons d rest ih =>
    simp only [stopLoop, List.mem_append]
    rcases List.mem_cons.1 hc with hd | hd
    · subst hd
      cases hr1 : (client.StopContainer c stopTimeout s).1 with
      | some e => exact ⟨some e, Or.inl (by simp [stopBody, hw, hs, hr1])⟩
      | none =>
        refine ⟨none, Or.inl ?_⟩
        cases hcl : cleanup <;> simp [stopBody, hw, hs, hr1]
    · obtain ⟨err, herr⟩ := ih _ hd
      exact ⟨err, Or.inr herr⟩

/-! ## Generated names -/

theorem letters_length : letters.length = 52 := by decide

theorem Intn_lt (g : Rng) : (Intn letters.length g).1 < letters.length :=
  Nat.mod_lt _ (by decide)

theorem letterAt_Intn (g : Rng) :
    letterAt (Intn letters.length g).1 = some (letters.getD (Intn letters.length g).1 'a') ∧
      letters.getD (Intn letters.length g).1 'a' ∈ letters := by
  have h := Intn_lt g
  rw [List.getD_eq_getElem _ 'a' h]
  exact ⟨List.getElem?_eq_getElem h, List.getElem_mem _⟩

/-- The checked loop never fails and agrees with `randRunes`, which yields `n`
runes of the alphabet. -/
theorem randRunes_spec (n : Nat) (g : Rng) :
    randRunesChecked n g = some (randRunes n g) ∧ (randRunes n g).1.length = n ∧
      ∀ ch ∈ (randRunes n g).1, ch ∈ letters := by
  induction n generalizing g with
  | zero => simp [randRunesChecked, randRunes]
  | succ n ih =>
    obtain ⟨h1, h2, h3⟩ := ih (Intn letters.length g).2
    obtain ⟨h4, h5⟩ := letterAt_Intn g
    refine ⟨?_, ?_, ?_⟩
    · simp [randRunesChecked, randRunes, h1, h4]
    · simp [randRunes, h2]
    · intro ch hch
      simp only [randRunes, List.mem_cons] at hch
      rcases hch with hch | hch
      · rw [hch]; exact h5
      · exact h3 ch hch

/-- Every generated name has 32 characters, all from the alphabet. -/
theorem randName_spec (g : Rng) :
    (randName g).1.length = 32 ∧ ∀ ch ∈ (randName g).1.data, ch ∈ letters := by
  obtain ⟨-, h2, h3⟩ := randRunes_spec 32 g
  exact ⟨by simp [randName, h2], by simpa [randName] using h3⟩

/-! ## The sweep, position by position -/

/-- The sweep leaves the visited part alone and relates every remaining element
to its final value: same name, links and updater flag, a set flag stays set, and
a flag is set only if it was set or a link leads to a container stale in `l`. -/
theorem sweep_forall₂ (l rest done : List Container)
    (hinv : ∀ c ∈ done ++ rest, c.Stale = true → LeadsToStale l c.Name)
    (hrest : ∀ c ∈ rest, c ∈ l) :
    ∃ rest', sweep done rest = done ++ rest' ∧
      List.Forall₂ (fun a b => b.Name = a.Name ∧ b.Links = a.Links ∧
        b.IsWatchtower = a.IsWatchtower ∧ (a.Stale = true → b.Stale = true) ∧
        (b.Stale = true → a.Stale = true ∨ ∃ n ∈ a.Links, LeadsToStale l n)) rest rest' := by
  induction rest generalizing done with
  | nil => exact ⟨[], by simp [sweep], List.Forall₂.nil⟩
  | cons p rest ih =>
    obtain ⟨hpn, hpl, hpw⟩ := promote_fields (done ++ p :: rest) p
    have hp : (promote (done ++ p :: rest) p).Stale = true →
        p.Stale = true ∨ ∃ n ∈ p.Links, LeadsToStale l n := by
      intro hst
      rcases (promote_stale_iff _ _).1 hst with hst | hst
      · exact Or.inl hst
      · obtain ⟨c, hc, hlink, hcs⟩ := (linkLoop_eq_true _ _).1 hst
        exact Or.inr ⟨c.Name, hlink, hinv c hc hcs⟩
    have hinv' : ∀ c ∈ (done ++ [promote (done ++ p :: rest) p]) ++ rest,
        c.Stale = true → LeadsToStale l c.Name := by
      intro c hc hst
      simp only [List.mem_append, List.mem_singleton] at hc
      rcases hc with (hc | hc) | hc
      · exact hinv c (by simp [hc]) hst
      · subst hc
        rw [hpn]
        rcases hp hst with h | ⟨n, hn, hlead⟩
        · exact hinv p (by simp) h
        · exact LeadsToStale.link p n (hrest p (List.mem_cons_self _ _)) hn hlead
      · exact hinv c (by simp [hc]) hst
    obtain ⟨rest', heq, hrel⟩ := ih (done ++ [promote (done ++ p :: rest) p]) hinv'
      (fun c hc => hrest c (List.mem_cons_of_mem _ hc))
    refine ⟨promote (done ++ p :: rest) p :: rest', ?_, ?_⟩
    · rw [sweep, heq]; simp
    · exact List.Forall₂.cons
        ⟨hpn, hpl, hpw, fun h => (promote_stale_iff _ _).2 (Or.inl h), hp⟩ hrel

/-- The start loop calls `RenameContainer`, with a generated name, for every
stale container it does not skip. -/
theorem startLoop_attempts {σ : Type} (client : Client σ) (noRestart : Bool)
    (startTimeout : Duration) (l : List Container) (s : σ) (g : Rng) (c : Container)
    (hc : c ∈ l) (hs : c.Stale = true) (hw : noRestart = true → c.IsWatchtower = true) :
    ∃ g' err, Event.RenameContainer c (randName g').1 err ∈
      (startLoop client noRestart startTimeout l s g).trace := by
  induction l generalizing s g with
  | nil => cases hc
  | cons d rest ih =>
    simp only [startLoop, List.mem_append]
    rcases List.mem_cons.1 hc with hd | hd
    · subst hd
      have hn : (noRestart && !c.IsWatchtower) = false := by
        cases hnr : noRestart
        · rfl
        · simp [hw hnr]
      cases hr1 : (client.RenameContainer c (randName g).1 s).1 with
      | some e => exact ⟨g, some e, Or.inl (by simp [startBody, hs, hn, hr1])⟩
      | none =>
        refine ⟨g, none, Or.inl ?_⟩
        cases hr2 : (client.StartContainer c startTimeout
            (client.RenameContainer c (randName g).1 s).2).1 <;>
          simp [startBody, hs, hn, hr1, hr2]
    · obtain ⟨g', err, herr⟩ := ih _ _ hd
      exact ⟨g', err, Or.inr herr⟩

/-! ## Phases -/

theorem classify_phase {σ : Type} (client : Client σ) (cs : List Container) (s : σ) :
    ∀ ev ∈ (classify client cs s).2.1, ev.call.phase = 1 := by
  intro ev hev
  have h1 : ev.call ∈ cs.map Call.IsContainerStale := by
    rw [← classify_calls client cs s]
    exact List.mem_map_of_mem _ hev
  obtain ⟨c, -, hc⟩ := List.mem_map.1 h1
  rw [← hc]; rfl

theorem startLoop_phase {σ : Type} (client : Client σ) (noRestart : Bool)
    (startTimeout : Duration) (l : List Container) (s : σ) (g : Rng) :
    ∀ ev ∈ (startLoop client noRestart startTimeout l s g).trace, ev.call.phase = 2 := by
  intro ev hev
  obtain ⟨c, -, -, -, ⟨n, h⟩ | h | h⟩ := startLoop_events _ _ _ _ _ _ _ hev <;>
    rw [h] <;> rfl

theorem stopLoop_phase {σ : Type} (client : Client σ) (cleanup : Bool)
    (stopTimeout : Duration) (l : List Container) (s : σ) :
    ∀ ev ∈ (stopLoop client cleanup stopTimeout l s).1, ev.call.phase = 3 := by
  intro ev hev
  obtain ⟨c, -, -, -, h | ⟨-, h⟩⟩ := stopLoop_events _ _ _ _ _ _ hev <;>
    rw [h] <;> rfl

theorem pairwise_phase_of_const {l : List Event} {k : Nat}
    (h : ∀ ev ∈ l, ev.call.phase = k) :
    l.Pairwise fun a b => a.call.phase ≤ b.call.phase :=
  List.pairwise_of_forall_mem_list fun a ha b hb => by rw [h a ha, h b hb]

theorem pairwise_phase_append {l₁ l₂ : List Event} {k₁ k₂ : Nat} (hk : k₁ ≤ k₂)
    (h₁ : l₁.Pairwise fun a b => a.call.phase ≤ b.call.phase)
    (h₂ : l₂.Pairwise fun a b => a.call.phase ≤ b.call.phase)
    (hl₁ : ∀ ev ∈ l₁, ev.call.phase ≤ k₁) (hl₂ : ∀ ev ∈ l₂, k₂ ≤ ev.call.phase) :
    (l₁ ++ l₂).Pairwise fun a b => a.call.phase ≤ b.call.phase :=
  List.pairwise_append.2 ⟨h₁, h₂, fun a ha b hb =>
    Nat.le_trans (hl₁ a ha) (Nat.le_trans hk (hl₂ b hb))⟩

theorem filterMap_eq_nil_of_forall {α β : Type} (f : α → Option β) (l : List α)
    (h : ∀ a ∈ l, f a = none) : l.filterMap f = [] := by
  induction l with
  | nil => rfl
  | cons a l ih =>
    rw [List.filterMap_cons, h a (List.mem_cons_self _ _)]
    exact ih fun b hb => h b (List.mem_cons_of_mem _ hb)

theorem Call.stopped_eq_none_of_phase {c : Call} (h : c.phase ≠ 3) : c.stopped = none := by
  cases c <;> simp [Call.phase, Call.stopped] at h ⊢

/-- The descriptors the stop loop passes to `StopContainer`, in order. -/
theorem stopLoop_stopped {σ : Type} (client : Client σ) (cleanup : Bool)
    (stopTimeout : Duration) (l : List Container) (s : σ) :
    (stopLoop client cleanup stopTimeout l s).1.filterMap (fun ev => ev.call.stopped) =
      l.filter fun c => c.Stale && !c.IsWatchtower := by
  induction l generalizing s with
  | nil => rfl
  | cons c rest ih =>
    simp only [stopLoop, List.filterMap_append, ih]
    cases hw : c.IsWatchtower
    · cases hs : c.Stale
      · simp [stopBody, hw, hs, List.filter]
      · cases hr1 : (client.StopContainer c stopTimeout s).1 with
        | some e => simp [stopBody, hw, hs, hr1, List.filter, Event.call, Call.stopped]
        | none =>
          cases hc : cleanup <;>
            simp [stopBody, hw, hs, hr1, List.filter, Event.call, Call.stopped]
    · simp [stopBody, hw, List.filter]

/-! ## Who is started and who is stopped, in which order -/

theorem Call.started_eq_none_of_phase {c : Call} (h : c.phase ≠ 2) : c.started = none := by
  cases c <;> simp [Call.phase, Call.started] at h ⊢

theorem startBody_started {σ : Type} (client : Client σ) (noRestart : Bool)
    (startTimeout : Duration) (c : Container) (s : σ) (g : Rng) :
    (startBody client noRestart startTimeout c s g).2.trace.filterMap
        (fun ev => ev.call.started) = [] ∨
    (startBody client noRestart startTimeout c s g).2.trace.filterMap
        (fun ev => ev.call.started) = [c] := by
  cases hs : c.Stale
  · left; simp [startBody, hs]
  · cases hn : (noRestart && !c.IsWatchtower)
    · cases hr1 : (client.RenameContainer c (randName g).1 s).1 with
      | some e => left; simp [startBody, hs, hn, hr1, Event.call, Call.started]
      | none =>
        right
        cases hr2 : (client.StartContainer c startTimeout
            (client.RenameContainer c (randName g).1 s).2).1 <;>
          simp [startBody, hs, hn, hr1, hr2, Event.call, Call.started]
    · left; simp [startBody, hs, hn]

/-- The descriptors the start loop passes to `StartContainer` form, in the order
of the calls, a sublist of the slice: each element is started at most once. -/
theorem startLoop_started {σ : Type} (client : Client σ) (noRestart : Bool)
    (startTimeout : Duration) (l : List Container) (s : σ) (g : Rng) :
    ((startLoop client noRestart startTimeout l s g).trace.filterMap
      fun ev => ev.call.started).Sublist l := by
  induction l generalizing s g with
  | nil => exact List.Sublist.slnil
  | cons c rest ih =>
    simp only [startLoop, List.filterMap_append]
    rcases startBody_started client noRestart startTimeout c s g with h | h
    · rw [h, List.nil_append]
      exact List.Sublist.cons _ (ih _ _)
    · rw [h, List.singleton_append]
      exact List.Sublist.cons₂ _ (ih _ _)

theorem Update_started_sublist {σ : Type} (client : Client σ)
    (sort : List Container → Except Error (List Container))
    (filter : Filter) (cleanup noRestart : Bool) (startTimeout stopTimeout : Duration)
    (s : σ) (g : Rng) (cs sorted : List Container)
    (hl : (client.ListContainers filter s).1 = .ok cs)
    (hs : sort (classify client cs (client.ListContainers filter s).2).1 = .ok sorted) :
    ((Update client sort filter cleanup noRestart startTimeout stopTimeout s g).trace.filterMap
      fun ev => ev.call.started).Sublist (checkDependencies sorted) := by
  rw [Update_trace_of_sort_ok client sort filter cleanup noRestart startTimeout stopTimeout
    s g cs sorted hl hs]
  have h1 : (classify client cs (client.ListContainers filter s).2).2.1.filterMap
      (fun ev => ev.call.started) = [] :=
    filterMap_eq_nil_of_forall _ _ fun ev hev =>
      Call.started_eq_none_of_phase (by rw [classify_phase client cs _ ev hev]; decide)
  have h3 : (stopLoop client cleanup stopTimeout (checkDependencies sorted).reverse
      (startLoop client noRestart startTimeout (checkDependencies sorted)
        (classify client cs (client.ListContainers filter s).2).2.2 g).state).1.filterMap
      (fun ev => ev.call.started) = [] :=
    filterMap_eq_nil_of_forall _ _ fun ev hev =>
      Call.started_eq_none_of_phase
        (by rw [stopLoop_phase client cleanup stopTimeout _ _ ev hev]; decide)
  rw [List.cons_append, List.cons_append, List.filterMap_cons_none rfl,
    List.filterMap_append, List.filterMap_append, h1, h3, List.nil_append, List.append_nil]
  exact startLoop_started client noRestart startTimeout _ _ _

theorem Update_stopped_sublist {σ : Type} (client : Client σ)
    (sort : List Container → Except Error (List Container))
    (filter : Filter) (cleanup noRestart : Bool) (startTimeout stopTimeout : Duration)
    (s : σ) (g : Rng) (cs sorted : List Container)
    (hl : (client.ListContainers filter s).1 = .ok cs)
    (hs : sort (classify client cs (client.ListContainers filter s).2).1 = .ok sorted) :
    ((Update client sort filter cleanup noRestart startTimeout stopTimeout s g).trace.filterMap
      fun ev => ev.call.stopped).Sublist (checkDependencies sorted).reverse := by
  rw [Update_trace_of_sort_ok client sort filter cleanup noRestart startTimeout stopTimeout
    s g cs sorted hl hs]
  have h1 : (classify client cs (client.ListContainers filter s).2).2.1.filterMap
      (fun ev => ev.call.stopped) = [] :=
    filterMap_eq_nil_of_forall _ _ fun ev hev =>
      Call.stopped_eq_none_of_phase (by rw [classify_phase client cs _ ev hev]; decide)
  have h2 : (startLoop client noRestart startTimeout (checkDependencies sorted)
      (classify client cs (client.ListContainers filter s).2).2.2 g).trace.filterMap
      (fun ev => ev.call.stopped) = [] :=
    filterMap_eq_nil_of_forall _ _ fun ev hev =>
      Call.stopped_eq_none_of_phase
        (by rw [startLoop_phase client noRestart startTimeout _ _ _ ev hev]; decide)
  rw [List.cons_append, List.cons_append, List.filterMap_cons_none rfl,
    List.filterMap_append, List.filterMap_append, h1, h2, stopLoop_stopped]
  exact List.filter_sublist _

/-- In a list in dependency order no container links to itself or to a later
one, and `checkDependencies` keeps it that way. -/
theorem DependencyOrder.propagated {l : List Container} (h : DependencyOrder l) :
    (checkDependencies l).Pairwise (fun a b => b.Name ∉ a.Links) ∧
      ∀ a ∈ checkDependencies l, a.Name ∉ a.Links := by
  refine ⟨?_, ?_⟩
  · rw [List.pairwise_iff_getElem]
    intro i j hi hj hij hlink
    obtain ⟨P0, hP0, hPn, hPl⟩ := checkDependencies_getElem?_key l i _
      (List.getElem?_eq_getElem hi)
    obtain ⟨C0, hC0, hCn, hCl⟩ := checkDependencies_getElem?_key l j _
      (List.getElem?_eq_getElem hj)
    have := h.lt_of_link hP0 hC0 (by rw [hCn, hPl]; exact hlink)
    omega
  · intro a ha hlink
    obtain ⟨i, hi⟩ := List.mem_iff_getElem?.1 ha
    obtain ⟨P0, hP0, hPn, hPl⟩ := checkDependencies_getElem?_key l i a hi
    have := h.lt_of_link hP0 hP0 (by rw [hPn, hPl]; exact hlink)
    omega

/-! ## Blocks of calls -/

theorem startBody_block {σ : Type} (client : Client σ) (noRestart : Bool)
    (startTimeout : Duration) (c : Container) (s : σ) (g : Rng) :
    StartBlock noRestart startTimeout c (startBody client noRestart startTimeout c s g).2.trace := by
  cases hs : c.Stale
  · left; simp [startBody, hs]
  · cases hn : (noRestart && !c.IsWatchtower)
    · right
      have hw : noRestart = true → c.IsWatchtower = true := by
        intro hnr; simpa [hnr] using hn
      refine ⟨hs, hw, g, ?_⟩
      cases hr1 : (client.RenameContainer c (randName g).1 s).1 with
      | some e => left; exact ⟨e, by simp [startBody, hs, hn, hr1]⟩
      | none =>
        right
        cases hr2 : (client.StartContainer c startTimeout
            (client.RenameContainer c (randName g).1 s).2).1 with
        | some e =>
          left
          exact ⟨e, (client.RenameContainer { c with Stale := false } c.Name
            (client.StartContainer c startTimeout
              (client.RenameContainer c (randName g).1 s).2).2).1,
            by simp [startBody, hs, hn, hr1, hr2]⟩
        | none => right; simp [startBody, hs, hn, hr1, hr2]
    · left
      simp only [Bool.and_eq_true, Bool.not_eq_true'] at hn
      simp [startBody, hs, hn.1, hn.2]

theorem stopBody_block {σ : Type} (client : Client σ) (cleanup : Bool)
    (stopTimeout : Duration) (c : Container) (s : σ) :
    StopBlock cleanup stopTimeout c (stopBody client cleanup stopTimeout c s).1 := by
  cases hw : c.IsWatchtower
  · cases hs : c.Stale
    · left; simp [stopBody, hw, hs]
    · right
      refine ⟨hw, hs, ?_⟩
      cases hr1 : (client.StopContainer c stopTimeout s).1 with
      | some e => left; exact ⟨e, by simp [stopBody, hw, hs, hr1]⟩
      | none =>
        right
        cases hc : cleanup
        · left; simp [stopBody, hw, hs, hr1]
        · right; simp [stopBody, hw, hs, hr1]
  · left; simp [stopBody, hw]

/-- The trace of the start loop is the concatenation of one block per element. -/
theorem startLoop_blocks {σ : Type} (client : Client σ) (noRestart : Bool)
    (startTimeout : Duration) (l : List Container) (s : σ) (g : Rng) :
    ∃ blocks, List.Forall₂ (StartBlock noRestart startTimeout) l blocks ∧
      (startLoop client noRestart startTimeout l s g).trace = blocks.flatten := by
  induction l generalizing s g with
  | nil => exact ⟨[], List.Forall₂.nil, rfl⟩
  | cons c rest ih =>
    obtain ⟨blocks, hrel, heq⟩ := ih
      (startBody client noRestart startTimeout c s g).2.state
      (startBody client noRestart startTimeout c s g).2.rng
    refine ⟨(startBody client noRestart startTimeout c s g).2.trace :: blocks,
      List.Forall₂.cons (startBody_block client noRestart startTimeout c s g) hrel, ?_⟩
    simp only [startLoop, List.flatten_cons, heq]

/-- Where an element of a concatenation sits. -/
theorem append_eq_append_cons {α : Type} {A B pre post : List α} {e : α}
    (h : A ++ B = pre ++ e :: post) :
    (∃ m, A = pre ++ e :: m ∧ post = m ++ B) ∨ (∃ m, pre = A ++ m ∧ B = m ++ e :: post) := by
  rcases List.append_eq_append_iff.1 h with ⟨a', h1, h2⟩ | ⟨c', h1, h2⟩
  · exact Or.inr ⟨a', h1, h2⟩
  · cases c' with
    | nil =>
      refine Or.inr ⟨[], by simpa using h1.symm, ?_⟩
      simpa using h2.symm
    | cons x c'' =>
      simp only [List.cons_append, List.cons.injEq] at h2
      refine Or.inl ⟨c'', ?_, h2.2⟩
      rw [h1, h2.1]

/-- An event of the start loop lies in the block of some element. -/
theorem startLoop_split {σ : Type} (client : Client σ) (noRestart : Bool)
    (startTimeout : Duration) (l : List Container) (s : σ) (g : Rng)
    (pre post : List Event) (e : Event)
    (h : (startLoop client noRestart startTimeout l s g).trace = pre ++ e :: post) :
    ∃ c ∈ l, ∃ b₁ b₂ p q, StartBlock noRestart startTimeout c (b₁ ++ e :: b₂) ∧
      pre = p ++ b₁ ∧ post = b₂ ++ q := by
  induction l generalizing s g pre with
  | nil => simp [startLoop] at h
  | cons c rest ih =>
    simp only [startLoop] at h
    rcases append_eq_append_cons h with ⟨m, h1, h2⟩ | ⟨m, h1, h2⟩
    · refine ⟨c, List.mem_cons_self _ _, pre, m, [], _, ?_, by simp, h2⟩
      rw [← h1]
      exact startBody_block client noRestart startTimeout c s g
    · obtain ⟨d, hd, b₁, b₂, p, q, hb, hp, hq⟩ := ih _ _ _ h2
      exact ⟨d, List.mem_cons_of_mem _ hd, b₁, b₂, _ ++ p, q, hb,
        by rw [h1, hp, List.append_assoc], hq⟩

/-- An event of the stop loop lies in the block of some element. -/
theorem stopLoop_split {σ : Type} (client : Client σ) (cleanup : Bool)
    (stopTimeout : Duration) (l : List Container) (s : σ)
    (pre post : List Event) (e : Event)
    (h : (stopLoop client cleanup stopTimeout l s).1 = pre ++ e :: post) :
    ∃ c ∈ l, ∃ b₁ b₂ p q, StopBlock cleanup stopTimeout c (b₁ ++ e :: b₂) ∧
      pre = p ++ b₁ ∧ post = b₂ ++ q := by
  induction l generalizing s pre with
  | nil => simp [stopLoop] at h
  | cons c rest ih =>
    simp only [stopLoop] at h
    rcases append_eq_append_cons h with ⟨m, h1, h2⟩ | ⟨m, h1, h2⟩
    · refine ⟨c, List.mem_cons_self _ _, pre, m, [], _, ?_, by simp, h2⟩
      rw [← h1]
      exact stopBody_block client cleanup stopTimeout c s
    · obtain ⟨d, hd, b₁, b₂, p, q, hb, hp, hq⟩ := ih _ _ h2
      exact ⟨d, List.mem_cons_of_mem _ hd, b₁, b₂, _ ++ p, q, hb,
        by rw [h1, hp, List.append_assoc], hq⟩


/-- A start call sits in its block right after the successful rename of the same
descriptor, and is followed by the rename back exactly when it failed. -/
theorem StartBlock.start_inv {noRestart : Bool} {startTimeout t : Duration} {c D : Container}
    {b₁ b₂ : List Event} {r : Option Error}
    (hb : StartBlock noRestart startTimeout c (b₁ ++ Event.StartContainer D t r :: b₂)) :
    D = c ∧ t = startTimeout ∧
      (∃ g, b₁ = [Event.RenameContainer c (randName g).1 none]) ∧
      ((r = none ∧ b₂ = []) ∨
        ∃ e r', r = some e ∧ b₂ = [Event.RenameContainer { c with Stale := false } c.Name r']) := by
  rcases hb with ⟨h, -⟩ | ⟨-, -, g, ⟨e, h⟩ | ⟨e, r', h⟩ | h⟩
  · simp at h
  · rcases b₁ with _ | ⟨x, _ | ⟨y, b₁⟩⟩ <;> simp at h
  · rcases b₁ with _ | ⟨x, _ | ⟨y, _ | ⟨z, b₁⟩⟩⟩ <;> simp at h
    obtain ⟨hx, ⟨hD, ht, hr⟩, hb₂⟩ := h
    exact ⟨hD, ht, ⟨g, by rw [hx]⟩, Or.inr ⟨e, r', hr, hb₂⟩⟩
  · rcases b₁ with _ | ⟨x, _ | ⟨y, _ | ⟨z, b₁⟩⟩⟩ <;> simp at h
    obtain ⟨hx, ⟨hD, ht, hr⟩, hb₂⟩ := h
    exact ⟨hD, ht, ⟨g, by rw [hx]⟩, Or.inl ⟨hr, hb₂⟩⟩

/-- An image removal sits in its block right after the successful stop of the
same descriptor, and only under cleanup. -/
theorem StopBlock.remove_inv {cleanup : Bool} {stopTimeout : Duration} {c D : Container}
    {b₁ b₂ : List Event} {r : Option Error}
    (hb : StopBlock cleanup stopTimeout c (b₁ ++ Event.RemoveImage D r :: b₂)) :
    cleanup = true ∧ b₁ = [Event.StopContainer D stopTimeout none] := by
  rcases hb with ⟨h, -⟩ | ⟨-, -, ⟨e, h⟩ | ⟨-, h⟩ | ⟨hc, r', h⟩⟩
  · simp at h
  · rcases b₁ with _ | ⟨x, _ | ⟨y, b₁⟩⟩ <;> simp at h
  · rcases b₁ with _ | ⟨x, _ | ⟨y, b₁⟩⟩ <;> simp at h
  · rcases b₁ with _ | ⟨x, _ | ⟨y, _ | ⟨z, b₁⟩⟩⟩ <;> simp at h
    obtain ⟨hx, ⟨hD, -⟩, -⟩ := h
    exact ⟨hc, by rw [hx, hD]⟩

/-- Under cleanup a successful stop is followed, in its block, by the image
removal for the same descriptor. -/
theorem StopBlock.stop_inv {cleanup : Bool} {stopTimeout t : Duration} {c D : Container}
    {b₁ b₂ : List Event} (hc : cleanup = true)
    (hb : StopBlock cleanup stopTimeout c (b₁ ++ Event.StopContainer D t none :: b₂)) :
    ∃ r, b₂ = [Event.RemoveImage D r] := by
  rcases hb with ⟨h, -⟩ | ⟨-, -, ⟨e, h⟩ | ⟨hc', h⟩ | ⟨-, r', h⟩⟩
  · simp at h
  · rcases b₁ with _ | ⟨x, _ | ⟨y, b₁⟩⟩ <;> simp at h
  · rw [hc] at hc'; exact Bool.noConfusion hc'
  · rcases b₁ with _ | ⟨x, _ | ⟨y, _ | ⟨z, b₁⟩⟩⟩ <;> simp at h
    obtain ⟨⟨hD, -⟩, hb₂⟩ := h
    exact ⟨r', by rw [hb₂, hD]⟩


/-- A successful rename of a descriptor whose flag is set is the first rename of
its block, and the start of the same descriptor follows it at once. -/
theorem StartBlock.rename_inv {noRestart : Bool} {startTimeout : Duration} {c D : Container}
    {b₁ b₂ : List Event} {n : String}
    (hb : StartBlock noRestart startTimeout c (b₁ ++ Event.RenameContainer D n none :: b₂))
    (hD : D.Stale = true) :
    ∃ r b₂', b₂ = Event.StartContainer D startTimeout r :: b₂' := by
  rcases hb with ⟨h, -⟩ | ⟨-, -, g, ⟨e, h⟩ | ⟨e, r', h⟩ | h⟩
  · simp at h
  · rcases b₁ with _ | ⟨x, _ | ⟨y, b₁⟩⟩ <;> simp at h
  · rcases b₁ with _ | ⟨x, _ | ⟨y, _ | ⟨z, b₁⟩⟩⟩ <;> simp at h
    · obtain ⟨⟨hc, -⟩, hb₂⟩ := h
      exact ⟨some e, _, by rw [hb₂, hc]⟩
    · obtain ⟨-, -, ⟨hc, -, -⟩, -⟩ := h
      rw [hc] at hD
      exact Bool.noConfusion hD
  · rcases b₁ with _ | ⟨x, _ | ⟨y, _ | ⟨z, b₁⟩⟩⟩ <;> simp at h
    obtain ⟨⟨hc, -⟩, hb₂⟩ := h
    exact ⟨none, _, by rw [hb₂, hc]⟩

/-- A rename or start call of a run lies in the start block of some descriptor. -/
theorem Update_start_split {σ : Type} (client : Client σ)
    (sort : List Container → Except Error (List Container))
    (filter : Filter) (cleanup noRestart : Bool) (startTimeout stopTimeout : Duration)
    (s : σ) (g : Rng) (pre post : List Event) (e : Event)
    (h : (Update client sort filter cleanup noRestart startTimeout stopTimeout s g).trace =
      pre ++ e :: post)
    (he : e.call.phase = 2) :
    ∃ c b₁ b₂ p q, StartBlock noRestart startTimeout c (b₁ ++ e :: b₂) ∧
      pre = p ++ b₁ ∧ post = b₂ ++ q := by
  have hmem : e ∈ (Update client sort filter cleanup noRestart startTimeout stopTimeout
      s g).trace := by rw [h]; simp
  rcases Update_trace_cases client sort filter cleanup noRestart startTimeout stopTimeout
      s g e hmem with h1 | ⟨c, h1⟩ | ⟨cs, sorted, hl, hs, -⟩
  · rw [h1] at he; cases he
  · rw [h1] at he; cases he
  · rw [Update_trace_of_sort_ok client sort filter cleanup noRestart startTimeout stopTimeout
      s g cs sorted hl hs] at h
    rcases append_eq_append_cons h with ⟨m, h1, h2⟩ | ⟨m, -, h2⟩
    · rcases append_eq_append_cons h1 with ⟨m', h3, -⟩ | ⟨m', h3, h4⟩
      · have hin : e ∈ Event.ListContainers filter (.ok cs) ::
            (classify client cs (client.ListContainers filter s).2).2.1 := by
          rw [h3]; simp
        rcases List.mem_cons.1 hin with h5 | h5
        · rw [h5] at he; cases he
        · rw [classify_phase client cs _ e h5] at he; cases he
      · obtain ⟨c, -, b₁, b₂, p, q, hb, hp, hq⟩ :=
          startLoop_split client noRestart startTimeout _ _ _ _ _ _ h4
        exact ⟨c, b₁, b₂, _ ++ p, q ++ _, hb, by rw [h3, hp, List.append_assoc],
          by rw [h2, hq, List.append_assoc]⟩
    · have hin : e ∈ (stopLoop client cleanup stopTimeout (checkDependencies sorted).reverse
          (startLoop client noRestart startTimeout (checkDependencies sorted)
            (classify client cs (client.ListContainers filter s).2).2.2 g).state).1 := by
        rw [h2]; simp
      rw [stopLoop_phase client cleanup stopTimeout _ _ e hin] at he
      cases he

/-- A stop or image-removal call of a run lies in the stop block of some
descriptor. -/
theorem Update_stop_split {σ : Type} (client : Client σ)
    (sort : List Container → Except Error (List Container))
    (filter : Filter) (cleanup noRestart : Bool) (startTimeout stopTimeout : Duration)
    (s : σ) (g : Rng) (pre post : List Event) (e : Event)
    (h : (Update client sort filter cleanup noRestart startTimeout stopTimeout s g).trace =
      pre ++ e :: post)
    (he : e.call.phase = 3) :
    ∃ c b₁ b₂ p q, StopBlock cleanup stopTimeout c (b₁ ++ e :: b₂) ∧
      pre = p ++ b₁ ∧ post = b₂ ++ q := by
  have hmem : e ∈ (Update client sort filter cleanup noRestart startTimeout stopTimeout
      s g).trace := by rw [h]; simp
  rcases Update_trace_cases client sort filter cleanup noRestart startTimeout stopTimeout
      s g e hmem with h1 | ⟨c, h1⟩ | ⟨cs, sorted, hl, hs, -⟩
  · rw [h1] at he; cases he
  · rw [h1] at he; cases he
  · rw [Update_trace_of_sort_ok client sort filter cleanup noRestart startTimeout stopTimeout
      s g cs sorted hl hs] at h
    rcases append_eq_append_cons h with ⟨m, h1, -⟩ | ⟨m, h1, h2⟩
    · have hin : e ∈ Event.ListContainers filter (.ok cs) ::
          (classify client cs (client.ListContainers filter s).2).2.1 ++
          (startLoop client noRestart startTimeout (checkDependencies sorted)
            (classify client cs (client.ListContainers filter s).2).2.2 g).trace := by
        rw [h1]; simp
      rcases List.mem_append.1 hin with h5 | h5
      · rcases List.mem_cons.1 h5 with h6 | h6
        · rw [h6] at he; cases he
        · rw [classify_phase client cs _ e h6] at he; cases he
      · rw [startLoop_phase client noRestart startTimeout _ _ _ e h5] at he; cases he
    · obtain ⟨c, -, b₁, b₂, p, q, hb, hp, hq⟩ :=
        stopLoop_split client cleanup stopTimeout _ _ _ _ _ h2
      refine ⟨c, b₁, b₂, (Event.ListContainers filter (.ok cs) ::
        (classify client cs (client.ListContainers filter s).2).2.1 ++
        (startLoop client noRestart startTimeout (checkDependencies sorted)
          (classify client cs (client.ListContainers filter s).2).2.2 g).trace) ++ p,
        q, hb, ?_, hq⟩
      rw [h1, hp]
      simp only [List.append_assoc]

/-! ## Which names the start loop generates -/

theorem randRunes_rng (n : Nat) (g : Rng) : (randRunes n g).2 = fun i => g (i + n) := by
  induction n generalizing g with
  | zero => rfl
  | succ n ih =>
    simp only [randRunes, ih, Intn]
    funext i
    rw [Nat.add_assoc, Nat.add_comm n 1]

theorem randName_rng (g : Rng) : (randName g).2 = fun i => g (i + 32) := by
  simp only [randName, randRunes_rng]

theorem startBody_rng {σ : Type} (client : Client σ) (noRestart : Bool)
    (startTimeout : Duration) (c : Container) (s : σ) (g : Rng) :
    (startBody client noRestart startTimeout c s g).2.rng = g ∨
      (startBody client noRestart startTimeout c s g).2.rng = (randName g).2 := by
  cases hs : c.Stale
  · left; simp [startBody, hs]
  · cases hn : (noRestart && !c.IsWatchtower)
    · right
      cases hr1 : (client.RenameContainer c (randName g).1 s).1 with
      | some e => simp [startBody, hs, hn, hr1]
      | none =>
        cases hr2 : (client.StartContainer c startTimeout
            (client.RenameContainer c (randName g).1 s).2).1 <;>
          simp [startBody, hs, hn, hr1, hr2]
    · left; simp [startBody, hs, hn]

/-- Every first rename of the start loop uses the name `randName` generates from
the random source of the run, 32 draws further on for each earlier rename. -/
theorem startLoop_rename_names {σ : Type} (client : Client σ) (noRestart : Bool)
    (startTimeout : Duration) (l : List Container) (s : σ) (g : Rng)
    (D : Container) (n : String) (r : Option Error)
    (h : Event.RenameContainer D n r ∈ (startLoop client noRestart startTimeout l s g).trace)
    (hD : D.Stale = true) :
    ∃ m, n = (randName fun i => g (i + 32 * m)).1 := by
  induction l generalizing s g with
  | nil => simp [startLoop] at h
  | cons c rest ih =>
    simp only [startLoop, List.mem_append] at h
    rcases h with h | h
    · refine ⟨0, ?_⟩
      obtain ⟨-, -, h1 | h1 | h1⟩ := startBody_events client noRestart startTimeout c s g _ h
      · simp only [Event.call, Call.RenameContainer.injEq] at h1
        rw [h1.2]; rfl
      · simp [Event.call] at h1
      · simp only [Event.call, Call.RenameContainer.injEq] at h1
        rw [h1.1] at hD
        exact Bool.noConfusion hD
    · obtain ⟨m, hm⟩ := ih _ _ h
      rcases startBody_rng client noRestart startTimeout c s g with hg | hg
      · rw [hg] at hm; exact ⟨m, hm⟩
      · refine ⟨m + 1, ?_⟩
        rw [hm, hg, randName_rng]
        have : (fun i => (fun j => g (j + 32)) (i + 32 * m)) = fun i => g (i + 32 * (m + 1)) := by
          funext i
          show g (i + 32 * m + 32) = g (i + 32 * (m + 1))
          rw [Nat.mul_succ, Nat.add_assoc]
        rw [this]

theorem Update_rename_names {σ : Type} (client : Client σ)
    (sort : List Container → Except Error (List Container))
    (filter : Filter) (cleanup noRestart : Bool) (startTimeout stopTimeout : Duration)
    (s : σ) (g : Rng) (D : Container) (n : String) (r : Option Error)
    (h : Event.RenameContainer D n r ∈
      (Update client sort filter cleanup noRestart startTimeout stopTimeout s g).trace)
    (hD : D.Stale = true) :
    ∃ m, n = (randName fun i => g (i + 32 * m)).1 := by
  rcases Update_trace_cases client sort filter cleanup noRestart startTimeout stopTimeout
      s g _ h with h1 | ⟨c, h1⟩ | ⟨cs, sorted, hl, hs, -⟩
  · cases h1
  · cases h1
  · rw [Update_trace_of_sort_ok client sort filter cleanup noRestart startTimeout stopTimeout
      s g cs sorted hl hs] at h
    simp only [List.cons_append, List.mem_cons, List.mem_append, reduceCtorEq, false_or] at h
    rcases h with (h | h) | h
    · have := classify_phase client cs _ _ h
      cases this
    · exact startLoop_rename_names client noRestart startTimeout _ _ g D n r h hD
    · have := stopLoop_phase client cleanup stopTimeout _ _ _ h
      cases this

/-- A block with a call in it belongs to a descriptor whose flag is set. -/
theorem StartBlock.stale {noRestart : Bool} {startTimeout : Duration} {c : Container}
    {b₁ b₂ : List Event} {e : Event}
    (hb : StartBlock noRestart startTimeout c (b₁ ++ e :: b₂)) : c.Stale = true := by
  rcases hb with ⟨h, -⟩ | ⟨h, -⟩
  · simp at h
  · exact h

/-- C1 (code defect): a failed start does not keep the old container from being
stopped. With the single stale container `A`, a successful rename and a failing
`StartContainer(A)`, the pass still goes on to `StopContainer(A)` and, under
cleanup, `RemoveImage(A)`; the same happens when the first rename fails. -/
theorem Update_stops_after_failed_start :
    (Update (scriptedClient (.ok [ctrA]) (fun _ => .ok true) false true false false)
        SortByDependencies 0 true false 10 20 () zeroRng).trace =
      [Event.ListContainers 0 (.ok [ctrA]),
       Event.IsContainerStale ctrA (.ok true),
       Event.RenameContainer { ctrA with Stale := true } rnd none,
       Event.StartContainer { ctrA with Stale := true } 10 (some "start failed"),
       Event.RenameContainer ctrA "A" none,
       Event.StopContainer { ctrA with Stale := true } 20 none,
       Event.RemoveImage { ctrA with Stale := true } none] ∧
    (Update (scriptedClient (.ok [ctrA]) (fun _ => .ok true) true false false false)
        SortByDependencies 0 true false 10 20 () zeroRng).trace =
      [Event.ListContainers 0 (.ok [ctrA]),
       Event.IsContainerStale ctrA (.ok true),
       Event.RenameContainer { ctrA with Stale := true } rnd (some "rename failed"),
       Event.StopContainer { ctrA with Stale := true } 20 none,
       Event.RemoveImage { ctrA with Stale := true } none] :=
  ⟨rfl, rfl⟩

/-- C2: on a list in dependency order `checkDependencies` reaches the
propagation fixpoint. After the sweep, whenever `P` links to the name of `C`
and `C` is Stale, `P` is Stale as well; this holds for link chains of any
length, and needs no uniqueness of names beyond what `DependencyOrder` says. -/
theorem checkDependencies_propagates (l : List Container) (hord : DependencyOrder l)
    (P C : Container) (hP : P ∈ checkDependencies l) (hC : C ∈ checkDependencies l)
    (hlink : C.Name ∈ P.Links) (hst : C.Stale = true) : P.Stale = true := by
  obtain ⟨i, hi⟩ := List.mem_iff_getElem?.1 hP
  obtain ⟨j, hj⟩ := List.mem_iff_getElem?.1 hC
  obtain ⟨P0, hP0, hPn, hPl⟩ := checkDependencies_getElem?_key l i P hi
  obtain ⟨C0, hC0, hCn, hCl⟩ := checkDependencies_getElem?_key l j C hj
  have hji : j < i := hord.lt_of_link hP0 hC0 (by rw [hCn, hPl]; exact hlink)
  have hpw := sweep_pairwise l [] List.Pairwise.nil
  rw [← checkDependencies_eq_sweep, List.pairwise_iff_getElem] at hpw
  obtain ⟨hi', hiv⟩ := List.getElem?_eq_some.1 hi
  obtain ⟨hj', hjv⟩ := List.getElem?_eq_some.1 hj
  have := hpw j i hj' hi' hji
  rw [hiv, hjv] at this
  exact this hlink hst

/-- C2 on the chain `A → B → C` listed dependencies first, only `C` stale: `B`
becomes stale, and so does `A`, two links away from `C`. -/
theorem checkDependencies_propagates_witness :
    DependencyOrder chainCBA ∧
      (⟨"A", ["B"], false, true⟩ : Container) ∈ checkDependencies chainCBA ∧
      (⟨"B", ["C"], false, true⟩ : Container) ∈ checkDependencies chainCBA ∧
      (⟨"A", ["B"], false, true⟩ : Container).Stale = true :=
  ⟨by decide, by decide, by decide,
    checkDependencies_propagates chainCBA (by decide) ⟨"A", ["B"], false, true⟩
      ⟨"B", ["C"], false, true⟩ (by decide) (by decide) (by decide) (by decide)⟩

/-- C3: fatal errors do no APPLY work. If `ListContainers` fails the trace is
that single call; if the dependency sort fails the calls are `ListContainers`
followed by the `IsContainerStale` calls; in both cases no call of the run is a
rename, start, stop or image removal. -/
theorem Update_fatal_no_apply {σ : Type} (client : Client σ)
    (sort : List Container → Except Error (List Container))
    (filter : Filter) (cleanup noRestart : Bool) (startTimeout stopTimeout : Duration)
    (s : σ) (g : Rng) :
    (∀ e, (client.ListContainers filter s).1 = .error e →
      (Update client sort filter cleanup noRestart startTimeout stopTimeout s g).trace =
        [Event.ListContainers filter (.error e)]) ∧
    (∀ cs e, (client.ListContainers filter s).1 = .ok cs →
      sort (classify client cs (client.ListContainers filter s).2).1 = .error e →
      (Update client sort filter cleanup noRestart startTimeout stopTimeout s g).trace.map
          Event.call = Call.ListContainers filter :: cs.map Call.IsContainerStale ∧
      ∀ ev ∈ (Update client sort filter cleanup noRestart startTimeout
          stopTimeout s g).trace, ev.call.isMutation = false) := by
  refine ⟨?_, ?_⟩
  · intro e hl
    simp [Update, hl]
  · intro cs e hl hs
    have hcalls := Update_calls_of_sort_error client sort filter cleanup noRestart
      startTimeout stopTimeout s g cs e hl hs
    refine ⟨hcalls, ?_⟩
    intro ev hev
    have h1 : ev.call ∈ Call.ListContainers filter :: cs.map Call.IsContainerStale := by
      rw [← hcalls]; exact List.mem_map_of_mem _ hev
    rcases List.mem_cons.1 h1 with h2 | h2
    · rw [h2]; rfl
    · obtain ⟨c, -, hc⟩ := List.mem_map.1 h2
      rw [← hc]; rfl

/-- C3 on the scenarios: a failing `ListContainers`, and the cycle
`X.Links = [Y]`, `Y.Links = [X]` with both containers reported stale. -/
theorem Update_fatal_no_apply_witness :
    (Update (scriptedClient (.error "no daemon") (fun _ => .ok true) false false false false)
        SortByDependencies 0 true false 10 20 () zeroRng).trace =
      [Event.ListContainers 0 (.error "no daemon")] ∧
    ((Update (scriptedClient (.ok [ctrX, ctrY]) (fun _ => .ok true) false false false false)
        SortByDependencies 0 true false 10 20 () zeroRng).trace.map Event.call =
      Call.ListContainers 0 :: [ctrX, ctrY].map Call.IsContainerStale ∧
     ∀ ev ∈ (Update (scriptedClient (.ok [ctrX, ctrY]) (fun _ => .ok true)
        false false false false) SortByDependencies 0 true false 10 20 () zeroRng).trace,
        ev.call.isMutation = false) :=
  ⟨(Update_fatal_no_apply (scriptedClient (.error "no daemon") (fun _ => .ok true)
      false false false false) SortByDependencies 0 true false 10 20 () zeroRng).1
      "no daemon" rfl,
   (Update_fatal_no_apply (scriptedClient (.ok [ctrX, ctrY]) (fun _ => .ok true)
      false false false false) SortByDependencies 0 true false 10 20 () zeroRng).2
      [ctrX, ctrY] "circular reference" rfl rfl⟩

/-- C4: the error `Update` returns is the error of `ListContainers` when that
call fails, else the error of the dependency sort when the sort fails, else
`nil`; no other call has any influence on it. -/
theorem Update_err {σ : Type} (client : Client σ)
    (sort : List Container → Except Error (List Container))
    (filter : Filter) (cleanup noRestart : Bool) (startTimeout stopTimeout : Duration)
    (s : σ) (g : Rng) :
    (Update client sort filter cleanup noRestart startTimeout stopTimeout s g).err =
      match (client.ListContainers filter s).1 with
      | .error e => some e
      | .ok cs =>
        match sort (classify client cs (client.ListContainers filter s).2).1 with
        | .error e => some e
        | .ok _ => none := by
  cases hl : (client.ListContainers filter s).1 with
  | error e => simp [Update, hl]
  | ok cs =>
    cases hs : sort (classify client cs (client.ListContainers filter s).2).1 with
    | error e => simp [Update, hl, hs]
    | ok sorted => simp [Update, hl, hs]

/-- C5: no descriptor that is the updater itself is ever passed to
`StopContainer` or to `RemoveImage`. -/
theorem Update_never_stops_self {σ : Type} (client : Client σ)
    (sort : List Container → Except Error (List Container))
    (filter : Filter) (cleanup noRestart : Bool) (startTimeout stopTimeout : Duration)
    (s : σ) (g : Rng) (ev : Event) (c : Container)
    (hev : ev ∈ (Update client sort filter cleanup noRestart startTimeout stopTimeout s g).trace)
    (hcall : (∃ t, ev.call = Call.StopContainer c t) ∨ ev.call = Call.RemoveImage c) :
    c.IsWatchtower = false := by
  rcases Update_trace_cases client sort filter cleanup noRestart startTimeout stopTimeout
      s g ev hev with h | ⟨d, h⟩ | ⟨cs, sorted, -, -, h | h⟩
  · rcases hcall with ⟨t, ht⟩ | ht <;> simp [h] at ht
  · rcases hcall with ⟨t, ht⟩ | ht <;> simp [h] at ht
  · obtain ⟨d, -, -, -, ⟨n, h⟩ | h | h⟩ := h <;>
      rcases hcall with ⟨t, ht⟩ | ht <;> simp [h] at ht
  · obtain ⟨d, -, -, hw, h | ⟨-, h⟩⟩ := h <;>
      rcases hcall with ⟨t, ht⟩ | ht <;> simp [h] at ht
    · rw [← ht.1]; exact hw
    · rw [← ht]; exact hw

/-- C5 on the scenario `[A, W]`, both stale, `W` the updater: the stop phase
stops `A`, which is not the updater. -/
theorem Update_never_stops_self_witness :
    Event.StopContainer { ctrA with Stale := true } 20 none ∈
        (Update (scriptedClient (.ok [ctrA, ctrW]) (fun _ => .ok true) false false false false)
          SortByDependencies 0 true true 10 20 () zeroRng).trace ∧
      ({ ctrA with Stale := true } : Container).IsWatchtower = false :=
  ⟨by decide,
    Update_never_stops_self
      (scriptedClient (.ok [ctrA, ctrW]) (fun _ => .ok true) false false false false)
      SortByDependencies 0 true true 10 20 () zeroRng
      (Event.StopContainer { ctrA with Stale := true } 20 none) { ctrA with Stale := true }
      (by decide) (Or.inl ⟨20, rfl⟩)⟩

/-- C6 as stated fails: in `[P, C]` with `P.Links = [C]`, `IsContainerStale(P)`
returns an error and `C` is stale; `P` is classified Fresh, then promoted by
`checkDependencies`, and is renamed, started and stopped in the same pass. -/
theorem Update_mutates_after_failed_check :
    (Update (scriptedClient (.ok [ctrP, ctrC]) failP false false false false)
        SortByDependencies 0 false false 10 20 () zeroRng).trace =
      [Event.ListContainers 0 (.ok [ctrP, ctrC]),
       Event.IsContainerStale ctrP (.error "timeout"),
       Event.IsContainerStale ctrC (.ok true),
       Event.RenameContainer { ctrC with Stale := true } rnd none,
       Event.StartContainer { ctrC with Stale := true } 10 none,
       Event.RenameContainer { ctrP with Stale := true } rnd none,
       Event.StartContainer { ctrP with Stale := true } 10 none,
       Event.StopContainer { ctrP with Stale := true } 20 none,
       Event.StopContainer { ctrC with Stale := true } 20 none] ∧
    ∃ ev ∈ (Update (scriptedClient (.ok [ctrP, ctrC]) failP false false false false)
        SortByDependencies 0 false false 10 20 () zeroRng).trace,
      ev.call.mutates ctrP.Name = true :=
  ⟨rfl, Event.StartContainer { ctrP with Stale := true } 10 none, by decide, rfl⟩

/-- C6, amended: with unique names, if `IsContainerStale(D)` returns an error then
`D` is classified Fresh, and if moreover none of `D`'s links leads to a
container marked stale at classification, no rename, start, stop or image
removal is issued for `D` in that pass. -/
theorem Update_failed_check_fresh {σ : Type} (client : Client σ)
    (sort : List Container → Except Error (List Container))
    (filter : Filter) (cleanup noRestart : Bool) (startTimeout stopTimeout : Duration)
    (s : σ) (g : Rng) (cs : List Container)
    (hl : (client.ListContainers filter s).1 = .ok cs)
    (hnames : (cs.map fun c => c.Name).Nodup)
    (hsub : ∀ sorted, sort (classify client cs (client.ListContainers filter s).2).1 = .ok sorted →
      ∀ c ∈ sorted, c ∈ (classify client cs (client.ListContainers filter s).2).1)
    (D : Container) (e : Error)
    (herr : Event.IsContainerStale D (.error e) ∈
      (Update client sort filter cleanup noRestart startTimeout stopTimeout s g).trace)
    (hlinks : ∀ n ∈ D.Links,
      ¬ LeadsToStale (classify client cs (client.ListContainers filter s).2).1 n) :
    { D with Stale := false } ∈ (classify client cs (client.ListContainers filter s).2).1 ∧
    ∀ ev ∈ (Update client sort filter cleanup noRestart startTimeout stopTimeout s g).trace,
      ev.call.mutates D.Name = false := by
  have hcl : Event.IsContainerStale D (.error e) ∈
      (classify client cs (client.ListContainers filter s).2).2.1 := by
    cases hs : sort (classify client cs (client.ListContainers filter s).2).1 with
    | error e' =>
      rw [Update_trace_of_sort_error client sort filter cleanup noRestart startTimeout
        stopTimeout s g cs e' hl hs] at herr
      simpa using herr
    | ok sorted =>
      rw [Update_trace_of_sort_ok client sort filter cleanup noRestart startTimeout
        stopTimeout s g cs sorted hl hs] at herr
      simp only [List.cons_append, List.mem_cons, List.mem_append, reduceCtorEq,
        false_or] at herr
      rcases herr with (herr | herr) | herr
      · exact herr
      · obtain ⟨c, -, -, -, ⟨n, h⟩ | h | h⟩ := startLoop_events _ _ _ _ _ _ _ herr <;>
          simp [Event.call] at h
      · obtain ⟨c, -, -, -, h | ⟨-, h⟩⟩ := stopLoop_events _ _ _ _ _ _ herr <;>
          simp [Event.call] at h
  have hmem := classify_error client cs _ D e hcl
  refine ⟨hmem, ?_⟩
  intro ev hev
  refine mutates_eq_false_of_not_leads
    (Update_mutation_leads client sort filter cleanup noRestart startTimeout stopTimeout
      s g cs hl hsub ev hev) ?_
  have hnd : ((classify client cs (client.ListContainers filter s).2).1.map
      fun c => c.Name).Nodup := by rw [classify_names]; exact hnames
  show ¬ LeadsToStale _ ({ D with Stale := false } : Container).Name
  exact not_leadsToStale_of_fresh hnd hmem rfl hlinks

/-- C6 (amended) on the scenario `[A, B]`: the check of `A` fails, `B` is stale. -/
theorem Update_failed_check_fresh_witness :
    Event.IsContainerStale ctrA (.error "timeout") ∈
      (Update (scriptedClient (.ok [ctrA, ctrB]) failA false false false false)
        SortByDependencies 0 true false 10 20 () zeroRng).trace ∧
    ({ ctrA with Stale := false } ∈
      (classify (scriptedClient (.ok [ctrA, ctrB]) failA false false false false)
        [ctrA, ctrB] ()).1 ∧
    ∀ ev ∈ (Update (scriptedClient (.ok [ctrA, ctrB]) failA false false false false)
        SortByDependencies 0 true false 10 20 () zeroRng).trace,
      ev.call.mutates ctrA.Name = false) :=
  ⟨by decide,
    Update_failed_check_fresh
      (scriptedClient (.ok [ctrA, ctrB]) failA false false false false)
      SortByDependencies 0 true false 10 20 () zeroRng [ctrA, ctrB] rfl (by decide)
      (fun sorted h => by cases h; decide) ctrA "timeout" (by decide)
      (fun n hn => by cases hn)⟩

/-- C7: frame. If no container carrying the name of `D` was marked stale at
classification, and none of the links of such a container leads, through
containers of the enumerated set, to a container marked stale at classification,
then the run issues no rename, start, stop or image removal for `D`. -/
theorem Update_frame {σ : Type} (client : Client σ)
    (sort : List Container → Except Error (List Container))
    (filter : Filter) (cleanup noRestart : Bool) (startTimeout stopTimeout : Duration)
    (s : σ) (g : Rng) (cs : List Container)
    (hl : (client.ListContainers filter s).1 = .ok cs)
    (hsub : ∀ sorted, sort (classify client cs (client.ListContainers filter s).2).1 = .ok sorted →
      ∀ c ∈ sorted, c ∈ (classify client cs (client.ListContainers filter s).2).1)
    (D : Container)
    (hfresh : ∀ c ∈ (classify client cs (client.ListContainers filter s).2).1,
      c.Name = D.Name → c.Stale = false)
    (hchain : ∀ c ∈ (classify client cs (client.ListContainers filter s).2).1,
      c.Name = D.Name → ∀ n ∈ c.Links,
        ¬ LeadsToStale (classify client cs (client.ListContainers filter s).2).1 n)
    (ev : Event)
    (hev : ev ∈ (Update client sort filter cleanup noRestart startTimeout stopTimeout s g).trace) :
    ev.call.mutates D.Name = false :=
  mutates_eq_false_of_not_leads
    (Update_mutation_leads client sort filter cleanup noRestart startTimeout stopTimeout
      s g cs hl hsub ev hev)
    (not_leadsToStale_of_name hfresh hchain)

/-- C7 on the scenario `[P, C, B]` with `P.Links = [C]` and only `B` stale: `P`
is fresh and its link `C` leads to no stale container, and the stop of `B` is
not a mutation of `P`. -/
theorem Update_frame_witness :
    Event.StopContainer { ctrB with Stale := true } 20 none ∈
      (Update (scriptedClient (.ok [ctrP, ctrC, ctrB]) staleB false false false false)
        SortByDependencies 0 true false 10 20 () zeroRng).trace ∧
    (Event.StopContainer { ctrB with Stale := true } 20 none).call.mutates ctrP.Name = false :=
  ⟨by decide,
    Update_frame (scriptedClient (.ok [ctrP, ctrC, ctrB]) staleB false false false false)
      SortByDependencies 0 true false 10 20 () zeroRng [ctrP, ctrC, ctrB] rfl
      (fun sorted h => by cases h; decide) ctrP (by decide)
      (fun c hc hn n hnl => by
        have hc' : c ∈ [ctrP, ctrC, { ctrB with Stale := true }] := hc
        simp only [List.mem_cons, List.mem_singleton, List.not_mem_nil, or_false] at hc'
        rcases hc' with rfl | rfl | rfl
        · have hnC : n = "C" := by simpa [ctrP] using hnl
          subst hnC
          refine not_leadsToStale_of_name (by decide) ?_
          intro d hd hdn m hm
          have hd' : d ∈ [ctrP, ctrC, { ctrB with Stale := true }] := hd
          simp only [List.mem_cons, List.mem_singleton, List.not_mem_nil, or_false] at hd'
          rcases hd' with rfl | rfl | rfl
          · exact absurd hdn (by decide)
          · cases hm
          · cases hm
        · exact absurd hn (by decide)
        · exact absurd hn (by decide))
      (Event.StopContainer { ctrB with Stale := true } 20 none) (by decide)⟩

/-- C8: if the listing succeeds and no `IsContainerStale` call answers `true`,
the calls of the run are `ListContainers` followed by one `IsContainerStale` per
enumerated container, in enumeration order, none of them a mutation; and the run
returns `nil` when the sort succeeds. -/
theorem Update_all_fresh {σ : Type} (client : Client σ)
    (sort : List Container → Except Error (List Container))
    (filter : Filter) (cleanup noRestart : Bool) (startTimeout stopTimeout : Duration)
    (s : σ) (g : Rng) (cs : List Container)
    (hl : (client.ListContainers filter s).1 = .ok cs)
    (hsub : ∀ sorted, sort (classify client cs (client.ListContainers filter s).2).1 = .ok sorted →
      ∀ c ∈ sorted, c ∈ (classify client cs (client.ListContainers filter s).2).1)
    (hfresh : ∀ d, Event.IsContainerStale d (.ok true) ∉
      (Update client sort filter cleanup noRestart startTimeout stopTimeout s g).trace) :
    (Update client sort filter cleanup noRestart startTimeout stopTimeout s g).trace.map
        Event.call = Call.ListContainers filter :: cs.map Call.IsContainerStale ∧
    (∀ ev ∈ (Update client sort filter cleanup noRestart startTimeout stopTimeout s g).trace,
        ev.call.isMutation = false) ∧
    (∀ sorted, sort (classify client cs (client.ListContainers filter s).2).1 = .ok sorted →
      (Update client sort filter cleanup noRestart startTimeout stopTimeout s g).err = none) := by
  have hcl : ∀ c ∈ (classify client cs (client.ListContainers filter s).2).1,
      c.Stale = false := by
    intro c hc
    cases hst : c.Stale with
    | false => rfl
    | true =>
      obtain ⟨d, hd⟩ := classify_stale client cs _ c hc hst
      exact absurd (classify_subset_trace client sort filter cleanup noRestart startTimeout
        stopTimeout s g cs hl _ hd) (hfresh d)
  have hcalls : (Update client sort filter cleanup noRestart startTimeout stopTimeout
      s g).trace.map Event.call = Call.ListContainers filter :: cs.map Call.IsContainerStale := by
    cases hs : sort (classify client cs (client.ListContainers filter s).2).1 with
    | error e =>
      exact Update_calls_of_sort_error client sort filter cleanup noRestart startTimeout
        stopTimeout s g cs e hl hs
    | ok sorted =>
      have hprop : ∀ c ∈ checkDependencies sorted, c.Stale = false := by
        intro c hc
        cases hst : c.Stale with
        | false => rfl
        | true =>
          obtain ⟨d, hd, hds⟩ := ((checkDependencies_sound sorted c hc).1 hst).exists_stale
          rw [hcl d (hsub sorted hs d hd)] at hds
          exact Bool.noConfusion hds
      have hrev : ∀ c ∈ (checkDependencies sorted).reverse, c.Stale = false :=
        fun c hc => hprop c (List.mem_reverse.1 hc)
      rw [Update_trace_of_sort_ok client sort filter cleanup noRestart startTimeout
        stopTimeout s g cs sorted hl hs,
        startLoop_trace_of_fresh client noRestart startTimeout _ _ _ hprop,
        stopLoop_trace_of_fresh client cleanup stopTimeout _ _ hrev]
      simp [Event.call, classify_calls]
  refine ⟨hcalls, ?_, ?_⟩
  · intro ev hev
    have h1 : ev.call ∈ Call.ListContainers filter :: cs.map Call.IsContainerStale := by
      rw [← hcalls]; exact List.mem_map_of_mem _ hev
    rcases List.mem_cons.1 h1 with h2 | h2
    · rw [h2]; rfl
    · obtain ⟨c, -, hc⟩ := List.mem_map.1 h2
      rw [← hc]; rfl
  · intro sorted hs
    simp [Update, hl, hs]

/-- C8 on `[A, B]` where `A` is reported not stale and the check of `B` fails. -/
theorem Update_all_fresh_witness :
    (Update (scriptedClient (.ok [ctrA, ctrB]) failB false false false false)
        SortByDependencies 0 true false 10 20 () zeroRng).trace.map Event.call =
      [Call.ListContainers 0, Call.IsContainerStale ctrA, Call.IsContainerStale ctrB] ∧
    (Update (scriptedClient (.ok [ctrA, ctrB]) failB false false false false)
        SortByDependencies 0 true false 10 20 () zeroRng).err = none :=
  have h := Update_all_fresh (scriptedClient (.ok [ctrA, ctrB]) failB false false false false)
    SortByDependencies 0 true false 10 20 () zeroRng [ctrA, ctrB] rfl
    (fun sorted h => by cases h; decide)
    (fun d => by
      intro hd
      have hd' : Event.IsContainerStale d (.ok true) ∈
          [Event.ListContainers 0 (.ok [ctrA, ctrB]),
           Event.IsContainerStale ctrA (.ok false),
           Event.IsContainerStale ctrB (.error "timeout")] := hd
      simp at hd')
  ⟨h.1, h.2.2 [ctrA, ctrB] rfl⟩

/-- C9: the happy path. When the listing and the sort succeed, no call of the run
fails, no container is the updater and `noRestart` is off, the calls of the run
are exactly: `ListContainers`; `IsContainerStale` for each container in
enumeration order; for each container stale after propagation, in sorted order,
`RenameContainer` to a generated name then `StartContainer`; and for the same
containers in reverse order `StopContainer`, followed by `RemoveImage` exactly
when `cleanup` is set. The run returns `nil`. -/
theorem Update_happy_path {σ : Type} (client : Client σ)
    (sort : List Container → Except Error (List Container))
    (filter : Filter) (cleanup : Bool) (startTimeout stopTimeout : Duration)
    (s : σ) (g : Rng) (cs sorted : List Container)
    (hl : (client.ListContainers filter s).1 = .ok cs)
    (hs : sort (classify client cs (client.ListContainers filter s).2).1 = .ok sorted)
    (hsub : ∀ c ∈ sorted, c ∈ (classify client cs (client.ListContainers filter s).2).1)
    (hnw : ∀ c ∈ cs, c.IsWatchtower = false)
    (hok : ∀ ev ∈ (Update client sort filter cleanup false startTimeout stopTimeout s g).trace,
      ev.failed = false) :
    (Update client sort filter cleanup false startTimeout stopTimeout s g).trace.map
        Event.call =
      Call.ListContainers filter :: cs.map Call.IsContainerStale ++
        happyStart startTimeout ((checkDependencies sorted).filter fun c => c.Stale) g ++
        happyStop cleanup stopTimeout
          ((checkDependencies sorted).filter fun c => c.Stale).reverse ∧
    (Update client sort filter cleanup false startTimeout stopTimeout s g).err = none := by
  have htrace := Update_trace_of_sort_ok client sort filter cleanup false startTimeout
    stopTimeout s g cs sorted hl hs
  rw [htrace] at hok
  have hnw' : ∀ c ∈ (checkDependencies sorted).reverse, c.IsWatchtower = false := by
    intro c hc
    obtain ⟨c0, hc0, -, -, hw0⟩ := (checkDependencies_sound sorted c (List.mem_reverse.1 hc)).2
    obtain ⟨c1, hc1, -, -, hw1⟩ := classify_fields client cs _ c0 (hsub c0 hc0)
    rw [← hw0, ← hw1]
    exact hnw c1 hc1
  have hstart := startLoop_happy client startTimeout (checkDependencies sorted)
    (classify client cs (client.ListContainers filter s).2).2.2 g
    (fun ev hev => hok ev (by simp [hev]))
  have hstop := stopLoop_happy client cleanup stopTimeout (checkDependencies sorted).reverse
    (startLoop client false startTimeout (checkDependencies sorted)
      (classify client cs (client.ListContainers filter s).2).2.2 g).state
    hnw' (fun ev hev => hok ev (by simp [hev]))
  refine ⟨?_, by simp [Update, hl, hs]⟩
  rw [htrace]
  simp only [List.map_append, List.map_cons, hstart, hstop, classify_calls,
    List.filter_reverse, Event.call, List.cons_append]

/-- C9 on the single stale container `A` with cleanup: List; IsStale(A);
Rename(A, rnd); Start(A); Stop(A); RemoveImage(A). -/
theorem Update_happy_path_witness :
    (Update (scriptedClient (.ok [ctrA]) (fun _ => .ok true) false false false false)
        SortByDependencies 0 true false 10 20 () zeroRng).trace.map Event.call =
      [Call.ListContainers 0, Call.IsContainerStale ctrA,
       Call.RenameContainer { ctrA with Stale := true } rnd,
       Call.StartContainer { ctrA with Stale := true } 10,
       Call.StopContainer { ctrA with Stale := true } 20,
       Call.RemoveImage { ctrA with Stale := true }] ∧
    (Update (scriptedClient (.ok [ctrA]) (fun _ => .ok true) false false false false)
        SortByDependencies 0 true false 10 20 () zeroRng).err = none :=
  Update_happy_path (scriptedClient (.ok [ctrA]) (fun _ => .ok true) false false false false)
    SortByDependencies 0 true 10 20 () zeroRng [ctrA] [{ ctrA with Stale := true }] rfl rfl
    (by decide) (by decide) (by decide)

/-- C10: with `noRestart` set, every `RenameContainer` and `StartContainer` call
is about the updater itself, namely about a container that is stale after
propagation (or its copy with the flag cleared, for the rename back); and every
container that is stale after propagation and is not the updater is passed to
`StopContainer`. -/
theorem Update_noRestart {σ : Type} (client : Client σ)
    (sort : List Container → Except Error (List Container))
    (filter : Filter) (cleanup : Bool) (startTimeout stopTimeout : Duration)
    (s : σ) (g : Rng) (cs sorted : List Container)
    (hl : (client.ListContainers filter s).1 = .ok cs)
    (hs : sort (classify client cs (client.ListContainers filter s).2).1 = .ok sorted) :
    (∀ ev ∈ (Update client sort filter cleanup true startTimeout stopTimeout s g).trace,
      ∀ d, ((∃ n, ev.call = Call.RenameContainer d n) ∨
          (∃ t, ev.call = Call.StartContainer d t)) →
        d.IsWatchtower = true ∧
        ∃ c ∈ checkDependencies sorted, c.Stale = true ∧
          (d = c ∨ d = { c with Stale := false })) ∧
    (∀ c ∈ checkDependencies sorted, c.Stale = true → c.IsWatchtower = false →
      ∃ err, Event.StopContainer c stopTimeout err ∈
        (Update client sort filter cleanup true startTimeout stopTimeout s g).trace) := by
  refine ⟨?_, ?_⟩
  · intro ev hev d hd
    rcases Update_trace_cases client sort filter cleanup true startTimeout stopTimeout
        s g ev hev with h | ⟨c, h⟩ | ⟨cs', sorted', hl', hs', h⟩
    · rcases hd with ⟨n, hn⟩ | ⟨t, ht⟩
      · rw [h] at hn; cases hn
      · rw [h] at ht; cases ht
    · rcases hd with ⟨n, hn⟩ | ⟨t, ht⟩
      · rw [h] at hn; cases hn
      · rw [h] at ht; cases ht
    · rw [hl] at hl'
      simp only [Except.ok.injEq] at hl'
      subst hl'
      rw [hs] at hs'
      simp only [Except.ok.injEq] at hs'
      subst hs'
      rcases h with ⟨c, hc, hst, hw, ⟨n, h⟩ | h | h⟩ | ⟨c, hc, hst, -, h | ⟨-, h⟩⟩
      · rcases hd with ⟨n', hn⟩ | ⟨t, ht⟩
        · rw [h] at hn
          simp only [Call.RenameContainer.injEq] at hn
          exact ⟨hn.1 ▸ hw rfl, c, hc, hst, Or.inl hn.1.symm⟩
        · rw [h] at ht; cases ht
      · rcases hd with ⟨n', hn⟩ | ⟨t, ht⟩
        · rw [h] at hn; cases hn
        · rw [h] at ht
          simp only [Call.StartContainer.injEq] at ht
          exact ⟨ht.1 ▸ hw rfl, c, hc, hst, Or.inl ht.1.symm⟩
      · rcases hd with ⟨n', hn⟩ | ⟨t, ht⟩
        · rw [h] at hn
          simp only [Call.RenameContainer.injEq] at hn
          refine ⟨?_, c, hc, hst, Or.inr hn.1.symm⟩
          rw [← hn.1]; exact hw rfl
        · rw [h] at ht; cases ht
      · rcases hd with ⟨n', hn⟩ | ⟨t, ht⟩
        · rw [h] at hn; cases hn
        · rw [h] at ht; cases ht
      · rcases hd with ⟨n', hn⟩ | ⟨t, ht⟩
        · rw [h] at hn; cases hn
        · rw [h] at ht; cases ht
  · intro c hc hst hw
    obtain ⟨err, herr⟩ := stopLoop_stops client cleanup stopTimeout
      (checkDependencies sorted).reverse
      (startLoop client true startTimeout (checkDependencies sorted)
        (classify client cs (client.ListContainers filter s).2).2.2 g).state
      c (List.mem_reverse.2 hc) hst hw
    refine ⟨err, ?_⟩
    rw [Update_trace_of_sort_ok client sort filter cleanup true startTimeout stopTimeout
      s g cs sorted hl hs]
    exact List.mem_append_right _ herr

/-- C10 on the scenario `[A, W]`, both stale, `W` the updater, `noRestart` set:
the only start is that of `W` and the only stop that of `A`. -/
theorem Update_noRestart_witness :
    (Update (scriptedClient (.ok [ctrA, ctrW]) (fun _ => .ok true) false false false false)
        SortByDependencies 0 false true 10 20 () zeroRng).trace.map Event.call =
      [Call.ListContainers 0, Call.IsContainerStale ctrA, Call.IsContainerStale ctrW,
       Call.RenameContainer { ctrW with Stale := true } rnd,
       Call.StartContainer { ctrW with Stale := true } 10,
       Call.StopContainer { ctrA with Stale := true } 20] ∧
    ({ ctrW with Stale := true } : Container).IsWatchtower = true ∧
    ∃ err, Event.StopContainer { ctrA with Stale := true } 20 err ∈
      (Update (scriptedClient (.ok [ctrA, ctrW]) (fun _ => .ok true) false false false false)
        SortByDependencies 0 false true 10 20 () zeroRng).trace :=
  have h := Update_noRestart
    (scriptedClient (.ok [ctrA, ctrW]) (fun _ => .ok true) false false false false)
    SortByDependencies 0 false 10 20 () zeroRng [ctrA, ctrW]
    [{ ctrA with Stale := true }, { ctrW with Stale := true }] rfl rfl
  ⟨rfl,
    (h.1 (Event.StartContainer { ctrW with Stale := true } 10 none) (by decide)
      { ctrW with Stale := true } (Or.inr ⟨10, rfl⟩)).1,
    h.2 { ctrA with Stale := true } (by decide) rfl rfl⟩

/-- C15: for every state of the random source `randName` returns 32 characters,
each from `letters`; `letters` has 52 pairwise distinct elements; every index
drawn by `rand.Intn(len(letters))` is in range, so that the loop with checked
indexing never fails and returns what `randName` returns. -/
theorem randName_contract (g : Rng) :
    (randName g).1.length = 32 ∧
    (∀ ch ∈ (randName g).1.data, ch ∈ letters) ∧
    letters.length = 52 ∧ letters.Nodup ∧
    (Intn letters.length g).1 < letters.length ∧
    randNameChecked g = some (randName g) := by
  refine ⟨(randName_spec g).1, (randName_spec g).2, letters_length, by decide, Intn_lt g, ?_⟩
  simp [randNameChecked, randName, (randRunes_spec 32 g).1]

/-- C18: one forward sweep is not enough on a parent-first list. For the chain
`A → B → C` listed as `[A, B, C]` (unique names, not in dependency order) with
only `C` stale, `checkDependencies` makes `B` stale and returns with `A` still
fresh, although `A` links to `B`. -/
theorem checkDependencies_parent_first :
    (chainABC.map fun c => c.Name).Nodup ∧ ¬ DependencyOrder chainABC ∧
    checkDependencies chainABC =
      [⟨"A", ["B"], false, false⟩, ⟨"B", ["C"], false, true⟩, ⟨"C", [], false, true⟩] := by
  decide

/-- C19: `checkDependencies` only widens staleness and is sound. Its result has
the length and order of its argument; position by position the name, the links
and the updater flag are unchanged, a set `Stale` flag stays set, and a flag is
set afterwards only if it was set before or one of the container's links leads,
through containers of the list, to a container that was stale before. -/
theorem checkDependencies_widens (l : List Container) :
    List.Forall₂ (fun a b => b.Name = a.Name ∧ b.Links = a.Links ∧
      b.IsWatchtower = a.IsWatchtower ∧ (a.Stale = true → b.Stale = true) ∧
      (b.Stale = true → a.Stale = true ∨ ∃ n ∈ a.Links, LeadsToStale l n))
      l (checkDependencies l) := by
  obtain ⟨rest', heq, hrel⟩ := sweep_forall₂ l l []
    (fun c hc hst => LeadsToStale.stale c (by simpa using hc) hst) (fun c hc => hc)
  rw [checkDependencies_eq_sweep, heq]
  simpa using hrel

/-- C11 as stated fails: with `noRestart` set and the stale updater `W` as only
container, the start phase renames `W` and starts its replacement. -/
theorem Update_noRestart_restarts_self :
    (Update (scriptedClient (.ok [ctrW]) (fun _ => .ok true) false false false false)
        SortByDependencies 0 false true 10 20 () zeroRng).trace =
      [Event.ListContainers 0 (.ok [ctrW]),
       Event.IsContainerStale ctrW (.ok true),
       Event.RenameContainer { ctrW with Stale := true } rnd none,
       Event.StartContainer { ctrW with Stale := true } 10 none] :=
  rfl

/-- C11, amended: with `noRestart` set the start phase skips the stale
descriptors that are not the updater. No `RenameContainer` or `StartContainer`
call is about a descriptor that is not the updater, while for every updater
descriptor that is stale after propagation `RenameContainer` is called with a
name generated from the random source of the run, and when that rename succeeds
the very next call is `StartContainer` for the same descriptor. -/
theorem Update_noRestart_skips_others {σ : Type} (client : Client σ)
    (sort : List Container → Except Error (List Container))
    (filter : Filter) (cleanup : Bool) (startTimeout stopTimeout : Duration)
    (s : σ) (g : Rng) :
    (∀ ev ∈ (Update client sort filter cleanup true startTimeout stopTimeout s g).trace,
      ∀ d, d.IsWatchtower = false →
        (∀ n, ev.call ≠ Call.RenameContainer d n) ∧
        (∀ t, ev.call ≠ Call.StartContainer d t)) ∧
    (∀ cs sorted, (client.ListContainers filter s).1 = .ok cs →
      sort (classify client cs (client.ListContainers filter s).2).1 = .ok sorted →
      ∀ c ∈ checkDependencies sorted, c.Stale = true → c.IsWatchtower = true →
        ∃ pre post m,
          (∃ e, (Update client sort filter cleanup true startTimeout stopTimeout s g).trace =
            pre ++ Event.RenameContainer c (randName fun i => g (i + 32 * m)).1 (some e) ::
              post) ∨
          (∃ r, (Update client sort filter cleanup true startTimeout stopTimeout s g).trace =
            pre ++ Event.RenameContainer c (randName fun i => g (i + 32 * m)).1 none ::
              Event.StartContainer c startTimeout r :: post)) := by
  refine ⟨?_, ?_⟩
  · intro ev hev d hd
    rcases Update_trace_cases client sort filter cleanup true startTimeout stopTimeout
        s g ev hev with h | ⟨c, h⟩ | ⟨cs', sorted', -, -, h⟩
    · rw [h]; exact ⟨fun n hn => (by cases hn), fun t ht => (by cases ht)⟩
    · rw [h]; exact ⟨fun n hn => (by cases hn), fun t ht => (by cases ht)⟩
    · rcases h with ⟨c, -, -, hw, ⟨n, h⟩ | h | h⟩ | ⟨c, -, -, -, h | ⟨-, h⟩⟩
      · rw [h]
        refine ⟨fun n' hn => ?_, fun t ht => (by cases ht)⟩
        simp only [Call.RenameContainer.injEq] at hn
        rw [← hn.1, hw rfl] at hd
        exact Bool.noConfusion hd
      · rw [h]
        refine ⟨fun n hn => (by cases hn), fun t ht => ?_⟩
        simp only [Call.StartContainer.injEq] at ht
        rw [← ht.1, hw rfl] at hd
        exact Bool.noConfusion hd
      · rw [h]
        refine ⟨fun n' hn => ?_, fun t ht => (by cases ht)⟩
        simp only [Call.RenameContainer.injEq] at hn
        rw [← hn.1] at hd
        simp only [hw rfl] at hd
        exact Bool.noConfusion hd
      · rw [h]; exact ⟨fun n hn => (by cases hn), fun t ht => (by cases ht)⟩
      · rw [h]; exact ⟨fun n hn => (by cases hn), fun t ht => (by cases ht)⟩
  · intro cs sorted hl hs c hc hst hw
    obtain ⟨g', err, herr⟩ := startLoop_attempts client true startTimeout
      (checkDependencies sorted) (classify client cs (client.ListContainers filter s).2).2.2 g
      c hc hst (fun _ => hw)
    have hmem : Event.RenameContainer c (randName g').1 err ∈
        (Update client sort filter cleanup true startTimeout stopTimeout s g).trace := by
      rw [Update_trace_of_sort_ok client sort filter cleanup true startTimeout stopTimeout
        s g cs sorted hl hs]
      exact List.mem_append_left _ (List.mem_append_right _ herr)
    obtain ⟨m, hm⟩ := Update_rename_names client sort filter cleanup true startTimeout
      stopTimeout s g c _ err hmem hst
    rw [hm] at hmem
    obtain ⟨pre, post, h⟩ := List.append_of_mem hmem
    cases err with
    | some e => exact ⟨pre, post, m, Or.inl ⟨e, h⟩⟩
    | none =>
      obtain ⟨d, b₁, b₂, p, q, hb, -, hq⟩ := Update_start_split client sort filter cleanup
        true startTimeout stopTimeout s g pre post _ h rfl
      obtain ⟨r, b₂', hb₂⟩ := hb.rename_inv hst
      refine ⟨pre, b₂' ++ q, m, Or.inr ⟨r, ?_⟩⟩
      rw [h, hq, hb₂]
      rfl

/-- C11 (amended) on the scenario `[A, W]`, both stale, `W` the updater: the
start of `W` is no call about `A`, and `W` is renamed and then started. -/
theorem Update_noRestart_skips_others_witness :
    (∀ t, (Event.StartContainer { ctrW with Stale := true } 10 none).call ≠
      Call.StartContainer { ctrA with Stale := true } t) ∧
    ∃ pre post m,
      (∃ e, (Update (scriptedClient (.ok [ctrA, ctrW]) (fun _ => .ok true)
          false false false false) SortByDependencies 0 false true 10 20 () zeroRng).trace =
        pre ++ Event.RenameContainer { ctrW with Stale := true }
          (randName fun i => zeroRng (i + 32 * m)).1 (some e) :: post) ∨
      (∃ r, (Update (scriptedClient (.ok [ctrA, ctrW]) (fun _ => .ok true)
          false false false false) SortByDependencies 0 false true 10 20 () zeroRng).trace =
        pre ++ Event.RenameContainer { ctrW with Stale := true }
          (randName fun i => zeroRng (i + 32 * m)).1 none ::
          Event.StartContainer { ctrW with Stale := true } 10 r :: post) :=
  have h := Update_noRestart_skips_others
    (scriptedClient (.ok [ctrA, ctrW]) (fun _ => .ok true) false false false false)
    SortByDependencies 0 false 10 20 () zeroRng
  ⟨(h.1 (Event.StartContainer { ctrW with Stale := true } 10 none) (by decide)
      { ctrA with Stale := true } rfl).2,
    h.2 [ctrA, ctrW] [{ ctrA with Stale := true }, { ctrW with Stale := true }] rfl rfl
      { ctrW with Stale := true } (by decide) rfl rfl⟩

/-- C16: phase ordering. The first call of every run is `ListContainers`, and of
two calls of a trace the earlier one never belongs to a later phase: listing
comes before classification, classification before every rename and start, and
these before every stop and image removal. -/
theorem Update_phase_order {σ : Type} (client : Client σ)
    (sort : List Container → Except Error (List Container))
    (filter : Filter) (cleanup noRestart : Bool) (startTimeout stopTimeout : Duration)
    (s : σ) (g : Rng) :
    (∃ res rest, (Update client sort filter cleanup noRestart startTimeout stopTimeout
        s g).trace = Event.ListContainers filter res :: rest ∧
      ∀ ev ∈ rest, 1 ≤ ev.call.phase) ∧
    (Update client sort filter cleanup noRestart startTimeout stopTimeout s g).trace.Pairwise
      fun a b => a.call.phase ≤ b.call.phase := by
  cases hl : (client.ListContainers filter s).1 with
  | error e =>
    have ht : (Update client sort filter cleanup noRestart startTimeout stopTimeout s g).trace =
        [Event.ListContainers filter (.error e)] := by simp [Update, hl]
    rw [ht]
    exact ⟨⟨_, [], rfl, fun ev hev => by cases hev⟩, List.pairwise_singleton _ _⟩
  | ok cs =>
    have hcl := classify_phase client cs (client.ListContainers filter s).2
    have hpre : (Event.ListContainers filter (.ok cs) ::
        (classify client cs (client.ListContainers filter s).2).2.1).Pairwise
        fun a b => a.call.phase ≤ b.call.phase :=
      List.pairwise_cons.2 ⟨fun b hb => by rw [hcl b hb]; exact Nat.zero_le _,
        pairwise_phase_of_const hcl⟩
    cases hs : sort (classify client cs (client.ListContainers filter s).2).1 with
    | error e =>
      rw [Update_trace_of_sort_error client sort filter cleanup noRestart startTimeout
        stopTimeout s g cs e hl hs]
      exact ⟨⟨_, _, rfl, fun ev hev => by rw [hcl ev hev]⟩, hpre⟩
    | ok sorted =>
      rw [Update_trace_of_sort_ok client sort filter cleanup noRestart startTimeout
        stopTimeout s g cs sorted hl hs]
      have hst := startLoop_phase client noRestart startTimeout (checkDependencies sorted)
        (classify client cs (client.ListContainers filter s).2).2.2 g
      have hsp := stopLoop_phase client cleanup stopTimeout (checkDependencies sorted).reverse
        (startLoop client noRestart startTimeout (checkDependencies sorted)
          (classify client cs (client.ListContainers filter s).2).2.2 g).state
      refine ⟨⟨_, _, by simp only [List.cons_append]; rfl, ?_⟩, ?_⟩
      · intro ev hev
        simp only [List.mem_append] at hev
        rcases hev with (hev | hev) | hev
        · rw [hcl ev hev]
        · rw [hst ev hev]; decide
        · rw [hsp ev hev]; decide
      · refine pairwise_phase_append (Nat.le_succ 2)
          (pairwise_phase_append (Nat.le_succ 1) hpre (pairwise_phase_of_const hst) ?_ ?_)
          (pairwise_phase_of_const hsp) ?_ ?_
        · intro ev hev
          rcases List.mem_cons.1 hev with h | h
          · rw [h]; exact Nat.zero_le _
          · rw [hcl ev h]
        · intro ev hev; rw [hst ev hev]
        · intro ev hev
          simp only [List.mem_append, List.mem_cons] at hev
          rcases hev with (h | h) | h
          · rw [h]; exact Nat.zero_le _
          · rw [hcl ev h]; decide
          · rw [hst ev h]
        · intro ev hev; rw [hsp ev hev]

/-- C20: the descriptors passed to `StopContainer`, in the order of the calls,
are the descriptors that `checkDependencies` leaves stale and that are not the
updater, in reverse sorted order; the outcome of the renames and starts plays no
part in it. -/
theorem Update_stopped {σ : Type} (client : Client σ)
    (sort : List Container → Except Error (List Container))
    (filter : Filter) (cleanup noRestart : Bool) (startTimeout stopTimeout : Duration)
    (s : σ) (g : Rng) (cs sorted : List Container)
    (hl : (client.ListContainers filter s).1 = .ok cs)
    (hs : sort (classify client cs (client.ListContainers filter s).2).1 = .ok sorted) :
    (Update client sort filter cleanup noRestart startTimeout stopTimeout s g).trace.filterMap
        (fun ev => ev.call.stopped) =
      (checkDependencies sorted).reverse.filter fun c => c.Stale && !c.IsWatchtower := by
  rw [Update_trace_of_sort_ok client sort filter cleanup noRestart startTimeout stopTimeout
    s g cs sorted hl hs]
  have h1 : (classify client cs (client.ListContainers filter s).2).2.1.filterMap
      (fun ev => ev.call.stopped) = [] :=
    filterMap_eq_nil_of_forall _ _ fun ev hev =>
      Call.stopped_eq_none_of_phase (by rw [classify_phase client cs _ ev hev]; decide)
  have h2 : (startLoop client noRestart startTimeout (checkDependencies sorted)
      (classify client cs (client.ListContainers filter s).2).2.2 g).trace.filterMap
      (fun ev => ev.call.stopped) = [] :=
    filterMap_eq_nil_of_forall _ _ fun ev hev =>
      Call.stopped_eq_none_of_phase
        (by rw [startLoop_phase client noRestart startTimeout _ _ _ ev hev]; decide)
  rw [List.cons_append, List.cons_append, List.filterMap_cons_none rfl,
    List.filterMap_append, List.filterMap_append, h1, h2, stopLoop_stopped]
  rfl

/-- C20 on the single stale container `A` whose start fails: `A` is stopped all
the same. -/
theorem Update_stopped_witness :
    (Update (scriptedClient (.ok [ctrA]) (fun _ => .ok true) false true false false)
        SortByDependencies 0 true false 10 20 () zeroRng).trace.filterMap
        (fun ev => ev.call.stopped) = [{ ctrA with Stale := true }] :=
  Update_stopped (scriptedClient (.ok [ctrA]) (fun _ => .ok true) false true false false)
    SortByDependencies 0 true false 10 20 () zeroRng [ctrA] [{ ctrA with Stale := true }]
    rfl rfl

/-- C12: on a dependency-ordered list dependencies are started first and stopped
last. Whenever `StartContainer` is called for `P` and for `C` and `P` links to
the name of `C`, the call for `C` comes earlier in the trace; whenever
`StopContainer` is called for both, the call for `P` comes earlier. -/
theorem Update_dependency_order {σ : Type} (client : Client σ)
    (sort : List Container → Except Error (List Container))
    (filter : Filter) (cleanup noRestart : Bool) (startTimeout stopTimeout : Duration)
    (s : σ) (g : Rng) (cs sorted : List Container)
    (hl : (client.ListContainers filter s).1 = .ok cs)
    (hs : sort (classify client cs (client.ListContainers filter s).2).1 = .ok sorted)
    (hord : DependencyOrder sorted)
    (i j : Nat) (a b : Event) (P C : Container)
    (ha : (Update client sort filter cleanup noRestart startTimeout stopTimeout s g).trace[i]? =
      some a)
    (hb : (Update client sort filter cleanup noRestart startTimeout stopTimeout s g).trace[j]? =
      some b)
    (hlink : C.Name ∈ P.Links) :
    (a.call.started = some P → b.call.started = some C → j < i) ∧
    (a.call.stopped = some P → b.call.stopped = some C → i < j) := by
  obtain ⟨hpw, hirr⟩ := hord.propagated
  obtain ⟨hi, hia⟩ := List.getElem?_eq_some.1 ha
  obtain ⟨hj, hjb⟩ := List.getElem?_eq_some.1 hb
  have hmema : a ∈ (Update client sort filter cleanup noRestart startTimeout stopTimeout
      s g).trace := List.mem_iff_getElem?.2 ⟨i, ha⟩
  refine ⟨?_, ?_⟩
  · intro hP hC
    have hsub := Update_started_sublist client sort filter cleanup noRestart startTimeout
      stopTimeout s g cs sorted hl hs
    have hpw' := List.pairwise_filterMap.1 (hpw.sublist hsub)
    rw [List.pairwise_iff_getElem] at hpw'
    rcases Nat.lt_trichotomy i j with hij | hij | hij
    · have := hpw' i j hi hj hij P (by rw [hia]; exact hP) C (by rw [hjb]; exact hC)
      exact absurd hlink this
    · subst hij
      rw [ha] at hb
      simp only [Option.some.injEq] at hb
      subst hb
      rw [hP] at hC
      simp only [Option.some.injEq] at hC
      subst hC
      have hmem : P ∈ checkDependencies sorted :=
        hsub.subset (List.mem_filterMap.2 ⟨a, hmema, hP⟩)
      exact absurd hlink (hirr P hmem)
    · exact hij
  · intro hP hC
    have hsub := Update_stopped_sublist client sort filter cleanup noRestart startTimeout
      stopTimeout s g cs sorted hl hs
    have hpw' := List.pairwise_filterMap.1 ((List.pairwise_reverse.2 hpw).sublist hsub)
    rw [List.pairwise_iff_getElem] at hpw'
    rcases Nat.lt_trichotomy i j with hij | hij | hij
    · exact hij
    · subst hij
      rw [ha] at hb
      simp only [Option.some.injEq] at hb
      subst hb
      rw [hP] at hC
      simp only [Option.some.injEq] at hC
      subst hC
      have hmem : P ∈ checkDependencies sorted :=
        List.mem_reverse.1 (hsub.subset (List.mem_filterMap.2 ⟨a, hmema, hP⟩))
      exact absurd hlink (hirr P hmem)
    · have := hpw' j i hj hi hij C (by rw [hjb]; exact hC) P (by rw [hia]; exact hP)
      exact absurd hlink this

/-- C12 on the scenario `[P, C]` with `P.Links = [C]` and only `C` stale at
classification: the starts are `C` then `P`, the stops `P` then `C`. -/
theorem Update_dependency_order_witness :
    (Update (scriptedClient (.ok [ctrP, ctrC]) staleC false false false false)
        SortByDependencies 0 false false 10 20 () zeroRng).trace.map Event.call =
      [Call.ListContainers 0, Call.IsContainerStale ctrP, Call.IsContainerStale ctrC,
       Call.RenameContainer { ctrC with Stale := true } rnd,
       Call.StartContainer { ctrC with Stale := true } 10,
       Call.RenameContainer { ctrP with Stale := true } rnd,
       Call.StartContainer { ctrP with Stale := true } 10,
       Call.StopContainer { ctrP with Stale := true } 20,
       Call.StopContainer { ctrC with Stale := true } 20] ∧
    DependencyOrder [{ ctrC with Stale := true }, ctrP] ∧ 4 < 6 ∧ 7 < 8 :=
  ⟨rfl, by decide,
    (Update_dependency_order
      (scriptedClient (.ok [ctrP, ctrC]) staleC false false false false)
      SortByDependencies 0 false false 10 20 () zeroRng [ctrP, ctrC]
      [{ ctrC with Stale := true }, ctrP] rfl rfl (by decide) 6 4
      (Event.StartContainer { ctrP with Stale := true } 10 none)
      (Event.StartContainer { ctrC with Stale := true } 10 none)
      { ctrP with Stale := true } { ctrC with Stale := true } rfl rfl (by decide)).1 rfl rfl,
    (Update_dependency_order
      (scriptedClient (.ok [ctrP, ctrC]) staleC false false false false)
      SortByDependencies 0 false false 10 20 () zeroRng [ctrP, ctrC]
      [{ ctrC with Stale := true }, ctrP] rfl rfl (by decide) 7 8
      (Event.StopContainer { ctrP with Stale := true } 20 none)
      (Event.StopContainer { ctrC with Stale := true } 20 none)
      { ctrP with Stale := true } { ctrC with Stale := true } rfl rfl (by decide)).2 rfl rfl⟩

/-- C13: rollback of the name swap. The start phase of a run is the
concatenation of one block of calls per descriptor of the propagated list, in
order, each block being empty, a failed rename alone, a successful rename with
the successful start, or a successful rename, the failed start and the rename
back to the old name; the calls of the stop phase follow. In particular the
call right after a failed `StartContainer(D)` is `RenameContainer(D, oldName)`. -/
theorem Update_rollback {σ : Type} (client : Client σ)
    (sort : List Container → Except Error (List Container))
    (filter : Filter) (cleanup noRestart : Bool) (startTimeout stopTimeout : Duration)
    (s : σ) (g : Rng) (cs sorted : List Container)
    (hl : (client.ListContainers filter s).1 = .ok cs)
    (hs : sort (classify client cs (client.ListContainers filter s).2).1 = .ok sorted) :
    (∃ blocks stops,
      List.Forall₂ (StartBlock noRestart startTimeout) (checkDependencies sorted) blocks ∧
      (Update client sort filter cleanup noRestart startTimeout stopTimeout s g).trace =
        Event.ListContainers filter (.ok cs) ::
          (classify client cs (client.ListContainers filter s).2).2.1 ++
          blocks.flatten ++ stops ∧
      ∀ ev ∈ stops, ev.call.phase = 3) ∧
    (∀ pre post D t e,
      (Update client sort filter cleanup noRestart startTimeout stopTimeout s g).trace =
        pre ++ Event.StartContainer D t (some e) :: post →
      ∃ r post', post = Event.RenameContainer { D with Stale := false } D.Name r :: post') := by
  refine ⟨?_, ?_⟩
  · obtain ⟨blocks, hrel, heq⟩ := startLoop_blocks client noRestart startTimeout
      (checkDependencies sorted) (classify client cs (client.ListContainers filter s).2).2.2 g
    refine ⟨blocks, _, hrel, ?_, stopLoop_phase client cleanup stopTimeout
      (checkDependencies sorted).reverse
      (startLoop client noRestart startTimeout (checkDependencies sorted)
        (classify client cs (client.ListContainers filter s).2).2.2 g).state⟩
    rw [Update_trace_of_sort_ok client sort filter cleanup noRestart startTimeout stopTimeout
      s g cs sorted hl hs, heq]
  · intro pre post D t e h
    obtain ⟨c, b₁, b₂, p, q, hb, -, hq⟩ := Update_start_split client sort filter cleanup
      noRestart startTimeout stopTimeout s g pre post _ h rfl
    obtain ⟨hD, -, -, ⟨he, -⟩ | ⟨e', r', -, hb₂⟩⟩ := hb.start_inv
    · cases he
    · exact ⟨r', q, by rw [hq, hb₂, hD]; rfl⟩

/-- C13 on the single stale container `A` whose start fails: the next call
renames `A` back to `A`. -/
theorem Update_rollback_witness :
    ∃ r post',
      [Event.RenameContainer ctrA "A" none,
       Event.StopContainer { ctrA with Stale := true } 20 none,
       Event.RemoveImage { ctrA with Stale := true } none] =
      Event.RenameContainer { ({ ctrA with Stale := true } : Container) with Stale := false }
        ({ ctrA with Stale := true } : Container).Name r :: post' :=
  (Update_rollback (scriptedClient (.ok [ctrA]) (fun _ => .ok true) false true false false)
    SortByDependencies 0 true false 10 20 () zeroRng [ctrA] [{ ctrA with Stale := true }]
    rfl rfl).2
    [Event.ListContainers 0 (.ok [ctrA]), Event.IsContainerStale ctrA (.ok true),
     Event.RenameContainer { ctrA with Stale := true } rnd none]
    [Event.RenameContainer ctrA "A" none,
     Event.StopContainer { ctrA with Stale := true } 20 none,
     Event.RemoveImage { ctrA with Stale := true } none]
    { ctrA with Stale := true } 10 "start failed" rfl

/-- C14: image removal. `RemoveImage(D)` is only called under cleanup and right
after a successful `StopContainer(D, stopTimeout)`; under cleanup a successful
`StopContainer(D)` is followed at once by `RemoveImage(D)`; without cleanup no
`RemoveImage` call is made; and whatever the removals return, every descriptor
that is stale after propagation and is not the updater is passed to
`StopContainer`. -/
theorem Update_cleanup {σ : Type} (client : Client σ)
    (sort : List Container → Except Error (List Container))
    (filter : Filter) (cleanup noRestart : Bool) (startTimeout stopTimeout : Duration)
    (s : σ) (g : Rng) :
    (∀ pre post D r,
      (Update client sort filter cleanup noRestart startTimeout stopTimeout s g).trace =
        pre ++ Event.RemoveImage D r :: post →
      cleanup = true ∧ ∃ pre', pre = pre' ++ [Event.StopContainer D stopTimeout none]) ∧
    (∀ pre post D t, cleanup = true →
      (Update client sort filter cleanup noRestart startTimeout stopTimeout s g).trace =
        pre ++ Event.StopContainer D t none :: post →
      ∃ r post', post = Event.RemoveImage D r :: post') ∧
    (cleanup = false →
      ∀ ev ∈ (Update client sort filter cleanup noRestart startTimeout stopTimeout s g).trace,
        ∀ D, ev.call ≠ Call.RemoveImage D) ∧
    (∀ cs sorted, (client.ListContainers filter s).1 = .ok cs →
      sort (classify client cs (client.ListContainers filter s).2).1 = .ok sorted →
      ∀ c ∈ checkDependencies sorted, c.Stale = true → c.IsWatchtower = false →
        ∃ err, Event.StopContainer c stopTimeout err ∈
          (Update client sort filter cleanup noRestart startTimeout stopTimeout s g).trace) := by
  have h1 : ∀ pre post D r,
      (Update client sort filter cleanup noRestart startTimeout stopTimeout s g).trace =
        pre ++ Event.RemoveImage D r :: post →
      cleanup = true ∧ ∃ pre', pre = pre' ++ [Event.StopContainer D stopTimeout none] := by
    intro pre post D r h
    obtain ⟨c, b₁, b₂, p, q, hb, hp, -⟩ := Update_stop_split client sort filter cleanup
      noRestart startTimeout stopTimeout s g pre post _ h rfl
    obtain ⟨hc, hb₁⟩ := hb.remove_inv
    exact ⟨hc, p, by rw [hp, hb₁]⟩
  refine ⟨h1, ?_, ?_, ?_⟩
  · intro pre post D t hc h
    obtain ⟨c, b₁, b₂, p, q, hb, -, hq⟩ := Update_stop_split client sort filter cleanup
      noRestart startTimeout stopTimeout s g pre post _ h rfl
    obtain ⟨r, hb₂⟩ := hb.stop_inv hc
    exact ⟨r, q, by rw [hq, hb₂]; rfl⟩
  · intro hc ev hev D hcall
    obtain ⟨pre, post, h⟩ := List.append_of_mem hev
    cases ev with
    | RemoveImage c r =>
      have := (h1 pre post c r h).1
      rw [hc] at this
      exact Bool.noConfusion this
    | _ => cases hcall
  · intro cs sorted hl hs c hc hst hw
    obtain ⟨err, herr⟩ := stopLoop_stops client cleanup stopTimeout
      (checkDependencies sorted).reverse
      (startLoop client noRestart startTimeout (checkDependencies sorted)
        (classify client cs (client.ListContainers filter s).2).2.2 g).state
      c (List.mem_reverse.2 hc) hst hw
    refine ⟨err, ?_⟩
    rw [Update_trace_of_sort_ok client sort filter cleanup noRestart startTimeout stopTimeout
      s g cs sorted hl hs]
    exact List.mem_append_right _ herr

/-- C14 on `[A, B]`, both stale, with every image removal failing: the removal
for `B` comes right after the successful stop of `B`, and `A` is stopped all the
same; and without cleanup no image is removed. -/
theorem Update_cleanup_witness :
    (true = true ∧ ∃ pre',
      [Event.ListContainers 0 (.ok [ctrA, ctrB]),
       Event.IsContainerStale ctrA (.ok true), Event.IsContainerStale ctrB (.ok true),
       Event.RenameContainer { ctrA with Stale := true } rnd none,
       Event.StartContainer { ctrA with Stale := true } 10 none,
       Event.RenameContainer { ctrB with Stale := true } rnd none,
       Event.StartContainer { ctrB with Stale := true } 10 none,
       Event.StopContainer { ctrB with Stale := true } 20 none] =
      pre' ++ [Event.StopContainer { ctrB with Stale := true } 20 none]) ∧
    (∃ r post',
      [Event.RemoveImage { ctrB with Stale := true } (some "remove failed"),
       Event.StopContainer { ctrA with Stale := true } 20 none,
       Event.RemoveImage { ctrA with Stale := true } (some "remove failed")] =
      Event.RemoveImage { ctrB with Stale := true } r :: post') ∧
    (∃ err, Event.StopContainer { ctrA with Stale := true } 20 err ∈
      (Update (scriptedClient (.ok [ctrA, ctrB]) (fun _ => .ok true) false false false true)
        SortByDependencies 0 true false 10 20 () zeroRng).trace) ∧
    (∀ ev ∈ (Update (scriptedClient (.ok [ctrA, ctrB]) (fun _ => .ok true)
        false false false true) SortByDependencies 0 false false 10 20 () zeroRng).trace,
      ∀ D, ev.call ≠ Call.RemoveImage D) :=
  have h := Update_cleanup
    (scriptedClient (.ok [ctrA, ctrB]) (fun _ => .ok true) false false false true)
    SortByDependencies 0 true false 10 20 () zeroRng
  ⟨h.1
      [Event.ListContainers 0 (.ok [ctrA, ctrB]),
       Event.IsContainerStale ctrA (.ok true), Event.IsContainerStale ctrB (.ok true),
       Event.RenameContainer { ctrA with Stale := true } rnd none,
       Event.StartContainer { ctrA with Stale := true } 10 none,
       Event.RenameContainer { ctrB with Stale := true } rnd none,
       Event.StartContainer { ctrB with Stale := true } 10 none,
       Event.StopContainer { ctrB with Stale := true } 20 none]
      [Event.StopContainer { ctrA with Stale := true } 20 none,
       Event.RemoveImage { ctrA with Stale := true } (some "remove failed")]
      { ctrB with Stale := true } (some "remove failed") rfl,
    h.2.1
      [Event.ListContainers 0 (.ok [ctrA, ctrB]),
       Event.IsContainerStale ctrA (.ok true), Event.IsContainerStale ctrB (.ok true),
       Event.RenameContainer { ctrA with Stale := true } rnd none,
       Event.StartContainer { ctrA with Stale := true } 10 none,
       Event.RenameContainer { ctrB with Stale := true } rnd none,
       Event.StartContainer { ctrB with Stale := true } 10 none]
      [Event.RemoveImage { ctrB with Stale := true } (some "remove failed"),
       Event.StopContainer { ctrA with Stale := true } 20 none,
       Event.RemoveImage { ctrA with Stale := true } (some "remove failed")]
      { ctrB with Stale := true } 20 rfl rfl,
    h.2.2.2 [ctrA, ctrB] [{ ctrA with Stale := true }, { ctrB with Stale := true }] rfl rfl
      { ctrA with Stale := true } (by decide) rfl rfl,
    (Update_cleanup
      (scriptedClient (.ok [ctrA, ctrB]) (fun _ => .ok true) false false false true)
      SortByDependencies 0 false false 10 20 () zeroRng).2.2.1 rfl⟩

end Watchtower
